import Mathlib

/-! Keyset pagination helpers of `internal/database/helpers.go`.

A shallow embedding of `PaginationArgs.SQL`, `OrderBy.SQL`, `OrderByOption.SQL`,
`PaginationArgs.Clone`, `QueryArgs.AppendAllToQuery` and `maybeQueryIsID`, together
with the part of the query builder `github.com/keegancsmith/sqlf` and of `strconv`
those functions call, and of `usersForTeamMembers` of
`cmd/frontend/graphqlbackend/teams.go`. The page assembler and the store's reading
of a boundary comparison, which the repository leaves to collaborators, are
modelled from the specification.

Go strings are modelled as `String`, Go `int` as `Int` (no arithmetic is done on
page sizes), nullable pointers (`*int`, `*string`, `*sqlf.Query`) as `Option`.
-/

/-! ## The query builder `sqlf` (external library) -/

namespace sqlf

/-- A value bound to a placeholder of a query (`interface{}` in `Query.args`). -/
inductive Arg where
  | int (n : Int)
  | str (s : String)
deriving DecidableEq, Repr

/-- The type `sqlf.Query`: a format text whose `%s` placeholders stand for the
bound values in `args`. -/
structure Query where
  fmt : String
  args : List Arg
deriving DecidableEq, Repr

/-- An operand of `sqlf.Sprintf`: either a nested query or a value to bind. -/
inductive Operand where
  | query (q : Query)
  | value (a : Arg)
deriving DecidableEq, Repr

/-- The text `sqlf.Sprintf` substitutes for an operand: the format of a nested
query, and the placeholder `%s` for a bound value. -/
def Operand.format : Operand → String
  | .query q => q.fmt
  | .value _ => "%s"

/-- The bound values an operand contributes to the resulting query. -/
def Operand.args : Operand → List Arg
  | .query q => q.args
  | .value a => [a]

/-- The call `strings.Replace(format, "%%", "%%%%", -1)` of `sqlf.Sprintf`:
every non-overlapping `%%`, scanning left to right, is doubled. -/
def escapePercent : List Char → List Char
  | [] => []
  | [c] => [c]
  | c :: d :: rest =>
    if c = '%' ∧ d = '%' then '%' :: '%' :: '%' :: '%' :: escapePercent rest
    else c :: escapePercent (d :: rest)

/-- The marker Go's `fmt` writes for operands left over after the format is
used up; each operand here has the type `sqlf.ignoreFormat`. -/
def extraOperands : List String → List Char
  | [] => []
  | ops =>
    "%!(EXTRA ".data ++ (", ".intercalate (ops.map fun o => "sqlf.ignoreFormat=" ++ o)).data
      ++ [')']

/-- The flags of a `fmt` directive: `#`, `0`, `+`, `-` and the blank. -/
def isFlag (c : Char) : Bool :=
  c = '#' || c = '0' || c = '+' || c = '-' || c = ' '

/-- The format after the flags of a directive. -/
def skipFlags : List Char → List Char
  | [] => []
  | c :: cs => if isFlag c then skipFlags cs else c :: cs

/-- The format after a decimal width or precision (`parsenum` of `fmt`), `num`
being the number read so far: a number that grows over `1e6` ends the format. -/
def skipNumber : Nat → List Char → List Char
  | _, [] => []
  | num, c :: cs =>
    if c.isDigit then
      if num > 1000000 then [] else skipNumber (num * 10 + (c.toNat - '0'.toNat)) cs
    else c :: cs

/-- The format after the precision of a directive, a `.` and a decimal number. -/
def skipPrecision : List Char → List Char
  | [] => []
  | c :: cs => if c = '.' then skipNumber 0 cs else c :: cs

/-- The format from the verb of a directive on, given the format after its `%`:
flags, width and precision are read first. -/
def fromVerb (afterPercent : List Char) : List Char :=
  skipPrecision (skipNumber 0 (skipFlags afterPercent))

/-- The loop of `goSprintf`, over at most `fuel` characters of the format. -/
def goSprintfLoop : Nat → List Char → List String → List Char
  | 0, _, ops => extraOperands ops
  | _ + 1, [], ops => extraOperands ops
  | fuel + 1, c :: rest, ops =>
    if c = '%' then
      match fromVerb rest with
      | [] => "%!(NOVERB)".data ++ extraOperands ops
      | v :: rest' =>
        if v = '%' then '%' :: goSprintfLoop fuel rest' ops
        else
          match ops with
          | [] => '%' :: '!' :: v :: "(MISSING)".data ++ goSprintfLoop fuel rest' []
          | o :: ops' => o.data ++ goSprintfLoop fuel rest' ops'
    else c :: goSprintfLoop fuel rest ops

/-- Go's `fmt.Sprintf(format, operands...)` where every operand is a
`sqlf.ignoreFormat`, whose `Format` method writes its stored text whatever the
verb, flags, width and precision. Literal text is copied; a directive is `%`,
flags, a decimal width, a precision and the verb; the verb `%` writes `%`, any
other verb consumes the next operand and writes its text, or writes
`%!verb(MISSING)` when no operand is left; a directive without verb, at the end
of the format, writes `%!(NOVERB)`. Not interpreted are the width and precision
`*`, the argument index `[n]`, and the verbs `T`, `p` and `w` on an operand: no
format of the package that has operands uses them. -/
def goSprintf (format : List Char) (ops : List String) : List Char :=
  goSprintfLoop format.length format ops

/-- The function `sqlf.Sprintf`: nested queries are spliced into the format,
other operands become `%s` placeholders and are appended to the bound values. -/
def Sprintf (format : String) (operands : List Operand) : Query :=
  { fmt := String.mk (goSprintf (escapePercent format.data) (operands.map Operand.format)),
    args := operands.flatMap Operand.args }

/-- The function `sqlf.Join`: the formats are joined with `" " + sep + " "` and
the bound values are concatenated. -/
def Join (queries : List Query) (sep : String) : Query :=
  { fmt := (" " ++ sep ++ " ").intercalate (queries.map Query.fmt),
    args := queries.flatMap Query.args }

end sqlf

/-! ## `strconv.ParseInt` (Go standard library) -/

namespace strconv

/-- The two errors of `strconv`: `ErrSyntax` and `ErrRange`. -/
inductive NumError where
  | ErrSyntax
  | ErrRange
deriving DecidableEq, Repr

/-- The digit value `ParseUint` reads from one byte: `c - '0'` for a decimal digit,
`lower(c) - 'a' + 10` for a letter, where `lower(c) = c | 0x20`; nothing for any
other byte. A character outside ASCII has no digit value, like each of its bytes. -/
def digit (c : Char) : Option Nat :=
  if '0'.toNat ≤ c.toNat ∧ c.toNat ≤ '9'.toNat then some (c.toNat - '0'.toNat)
  else if 'a'.toNat ≤ (c.toNat ||| 0x20) ∧ (c.toNat ||| 0x20) ≤ 'z'.toNat then
    some ((c.toNat ||| 0x20) - 'a'.toNat + 10)
  else none

/-- The loop of `ParseUint` over the bytes of the number, from the accumulator
`n` (a `uint64`): it returns at the first byte that is no digit of the base
(`ErrSyntax`) or that takes the value over `maxVal` (`ErrRange`, with `maxVal`). -/
def ParseUint.loop (base maxVal : Nat) : Nat → List Char → Nat × Option NumError
  | n, [] => (n, none)
  | n, c :: cs =>
    match digit c with
    | none => (0, some .ErrSyntax)
    | some d =>
      if d ≥ base then (0, some .ErrSyntax)
      else if n ≥ (2 ^ 64 - 1) / base + 1 then (maxVal, some .ErrRange)
      else
        let n := n * base
        let n1 := (n + d) % 2 ^ 64
        if n1 < n ∨ n1 > maxVal then (maxVal, some .ErrRange)
        else ParseUint.loop base maxVal n1 cs

/-- The function `strconv.ParseUint` for a base from 2 to 36 and a bit size from 1
to 64: the value and the error, `none` for `nil`. -/
def ParseUint (s : List Char) (base bitSize : Nat) : Nat × Option NumError :=
  if s = [] then (0, some .ErrSyntax)
  else ParseUint.loop base (2 ^ bitSize - 1) 0 s

/-- The function `strconv.ParseInt` for a base from 2 to 36 and a bit size from 1
to 64: the value and the error, `none` for `nil`. -/
def ParseInt (s : String) (base bitSize : Nat) : Int × Option NumError :=
  match s.data with
  | [] => (0, some .ErrSyntax)
  | c :: rest =>
    let neg := c = '-'
    let s := if c = '+' then rest else if c = '-' then rest else c :: rest
    let (un, err) := ParseUint s base bitSize
    if err = some .ErrSyntax then (0, err)
    else
      let cutoff := 2 ^ (bitSize - 1)
      if ¬neg ∧ un ≥ cutoff then (cutoff - 1, some .ErrRange)
      else if neg ∧ un > cutoff then (-cutoff, some .ErrRange)
      else if neg then (-(un : Int), none) else ((un : Int), none)

end strconv

/-! ## `internal/database/helpers.go` -/

namespace database

/-- The struct `QueryArgs`. -/
structure QueryArgs where
  Where : Option sqlf.Query
  Order : Option sqlf.Query
  Limit : Option sqlf.Query
deriving DecidableEq, Repr

/-- The struct `OrderByOption`. -/
structure OrderByOption where
  Field : String
  Nulls : String := ""
deriving DecidableEq, Repr, Inhabited

/-- The type `OrderBy`, a slice of `OrderByOption`. -/
abbrev OrderBy := List OrderByOption

/-- The method `OrderByOption.SQL`: the text built in the `strings.Builder` is
handed to `sqlf.Sprintf` as a format without operands. -/
def OrderByOption.SQL (o : OrderByOption) (ascending : Bool) : sqlf.Query :=
  let sb := o.Field
  let sb := if ascending then sb ++ " ASC" else sb ++ " DESC"
  let sb := if o.Nulls = "FIRST" ∨ o.Nulls = "LAST" then sb ++ (" NULLS " ++ o.Nulls) else sb
  sqlf.Sprintf sb []

/-- The method `OrderBy.SQL`. -/
def OrderBy.SQL (o : OrderBy) (ascending : Bool) : sqlf.Query :=
  let columns := o.map fun orderOption => orderOption.SQL ascending
  sqlf.Join columns ", "

/-- The struct `PaginationArgs`. -/
structure PaginationArgs where
  First : Option Int := none
  Last : Option Int := none
  After : Option String := none
  Before : Option String := none
  OrderBy : database.OrderBy := []
  Ascending : Bool := false
deriving DecidableEq, Repr

/-- The local `orderBy` of `PaginationArgs.SQL`: the request's keys, or the single
key `id` when there is none. -/
def PaginationArgs.orderBy (p : PaginationArgs) : database.OrderBy :=
  if p.OrderBy.length < 1 then [{ Field := "id" }] else p.OrderBy

/-- The local `orderByColumn := orderBy[0]` of `PaginationArgs.SQL`. The index is
always in range; the empty case is unreachable. -/
def PaginationArgs.orderByColumn (p : PaginationArgs) : OrderByOption :=
  match p.orderBy with
  | c :: _ => c
  | [] => default

/-- The local `conditions` of `PaginationArgs.SQL` once both cursors have been
looked at. `fmt.Sprintf("%s >", f)` is `f ++ " >"` and `fmt.Sprintf("%s %s", c, v)`
is `c ++ " " ++ v`. -/
def PaginationArgs.conditions (p : PaginationArgs) : List sqlf.Query :=
  let orderByColumn := p.orderByColumn
  let conditions : List sqlf.Query := []
  let conditions :=
    match p.After with
    | some after =>
      let condition := orderByColumn.Field ++ " >"
      let condition := if !p.Ascending then orderByColumn.Field ++ " <" else condition
      conditions ++ [sqlf.Sprintf (condition ++ " " ++ after) []]
    | none => conditions
  let conditions :=
    match p.Before with
    | some before =>
      let condition := orderByColumn.Field ++ " <"
      let condition := if !p.Ascending then orderByColumn.Field ++ " >" else condition
      conditions ++ [sqlf.Sprintf (condition ++ " " ++ before) []]
    | none => conditions
  conditions

/-- The method `PaginationArgs.SQL`. -/
def PaginationArgs.SQL (p : PaginationArgs) : QueryArgs :=
  let queryArgs : QueryArgs := { Where := none, Order := none, Limit := none }
  let orderBy := p.orderBy
  let conditions := p.conditions
  let queryArgs :=
    if conditions.length > 0 then
      { queryArgs with Where := some (sqlf.Sprintf "%v" [.query (sqlf.Join conditions "AND ")]) }
    else queryArgs
  match p.First with
  | some first =>
    { queryArgs with
      Order := some (database.OrderBy.SQL orderBy p.Ascending)
      Limit := some (sqlf.Sprintf "LIMIT %d" [.value (.int first)]) }
  | none =>
    match p.Last with
    | some last =>
      { queryArgs with
        Order := some (database.OrderBy.SQL orderBy (!p.Ascending))
        Limit := some (sqlf.Sprintf "LIMIT %d" [.value (.int last)]) }
    | none => { queryArgs with Order := some (database.OrderBy.SQL orderBy p.Ascending) }

/-- The generic function `copyPtr`. -/
def copyPtr {T : Type} (n : Option T) : Option T :=
  match n with
  | none => none
  | some c => some c

/-- The method `PaginationArgs.Clone`: the composite literal sets four fields, the
other two keep Go's zero value (a nil slice and `false`). -/
def PaginationArgs.Clone (p : PaginationArgs) : PaginationArgs :=
  { First := copyPtr p.First
    Last := copyPtr p.Last
    After := copyPtr p.After
    Before := copyPtr p.Before
    OrderBy := []
    Ascending := false }

/-- The conversion `int32(id)` of an `int64`: the value is wrapped to 32 bits. -/
def toInt32 (x : Int) : Int :=
  (x + 2 ^ 31) % 2 ^ 32 - 2 ^ 31

/-- The function `maybeQueryIsID`. The library call `relay.UnmarshalSpec(graphql.ID(query), &id)`
is the parameter `UnmarshalSpec`: it gives the value left in `id` and the error, `none`
for `nil`. -/
def maybeQueryIsID (UnmarshalSpec : String → Int × Option String) (query : String) : Int × Bool :=
  match strconv.ParseInt query 10 32 with
  | (id, none) => (toInt32 id, true)
  | (_, some _) =>
    let (id, err) := UnmarshalSpec query
    (id, err = none)

/-- The method `QueryArgs.AppendWhereToQuery`. -/
def QueryArgs.AppendWhereToQuery (a : QueryArgs) (query : sqlf.Query) : sqlf.Query :=
  match a.Where with
  | none => query
  | some w => sqlf.Sprintf "%v WHERE %v" [.query query, .query w]

/-- The method `QueryArgs.AppendOrderToQuery`. -/
def QueryArgs.AppendOrderToQuery (a : QueryArgs) (query : sqlf.Query) : sqlf.Query :=
  match a.Order with
  | none => query
  | some o => sqlf.Sprintf "%v ORDER BY %v" [.query query, .query o]

/-- The method `QueryArgs.AppendLimitToQuery`. -/
def QueryArgs.AppendLimitToQuery (a : QueryArgs) (query : sqlf.Query) : sqlf.Query :=
  match a.Limit with
  | none => query
  | some l => sqlf.Sprintf "%v %v" [.query query, .query l]

/-- The method `QueryArgs.AppendAllToQuery`. -/
def QueryArgs.AppendAllToQuery (a : QueryArgs) (query : sqlf.Query) : sqlf.Query :=
  let query := a.AppendWhereToQuery query
  let query := a.AppendOrderToQuery query
  let query := a.AppendLimitToQuery query
  query

/-! ### Requests used as examples -/

/-- The round-trip scenario: `first: 2` on the key `id`, ascending. -/
def roundTripRequest : PaginationArgs :=
  { First := some 2, OrderBy := [{ Field := "id" }], Ascending := true }

/-- The backward scenario: `last: 2, before: "4"` on the key `id`, ascending. -/
def backwardRequest : PaginationArgs :=
  { Last := some 2, Before := some "4", OrderBy := [{ Field := "id" }], Ascending := true }

/-- The boundary scenario: `first: 10, after: "5"` on the key `id`, ascending. -/
def boundaryRequest : PaginationArgs :=
  { First := some 10, After := some "5", OrderBy := [{ Field := "id" }], Ascending := true }

/-- A request without keys, `first: 3, after: "7"`, in descending base order. -/
def noKeysRequest : PaginationArgs :=
  { First := some 3, After := some "7" }

/-- An unbounded request on the key `name`, ascending. -/
def unboundedRequest : PaginationArgs :=
  { OrderBy := [{ Field := "name" }], Ascending := true }

/-- A request between two cursors on two keys: `last: 2, after: "1", before: "4"`. -/
def betweenRequest : PaginationArgs :=
  { Last := some 2, After := some "1", Before := some "4",
    OrderBy := [{ Field := "id" }, { Field := "name", Nulls := "LAST" }], Ascending := true }

/-- A request with both counts: `first: 2, last: 3` on the key `id`, ascending. -/
def bothCountsRequest : PaginationArgs :=
  { First := some 2, Last := some 3, OrderBy := [{ Field := "id" }], Ascending := true }

/-- A request with the count zero: `first: 0` on the key `id`, ascending. -/
def zeroCountRequest : PaginationArgs :=
  { First := some 0, OrderBy := [{ Field := "id" }], Ascending := true }

/-- A request with a negative count: `last: -1` on the key `id`, ascending. -/
def negativeCountRequest : PaginationArgs :=
  { Last := some (-1), OrderBy := [{ Field := "id" }], Ascending := true }

/-- A request on the key `name`, descending, between two cursors:
`first: 10, after: "9", before: "5"`. -/
def descendingNameRequest : PaginationArgs :=
  { First := some 10, After := some "9", Before := some "5",
    OrderBy := [{ Field := "name" }], Ascending := false }

end database

/-! ## `cmd/frontend/graphqlbackend/teams.go` -/

namespace graphqlbackend

/-- The struct `TeamMemberInput`; a `graphql.ID` is a string. -/
structure TeamMemberInput where
  ID : Option String := none
  Username : Option String := none
  Email : Option String := none
  ExternalAccountServiceID : Option String := none
  ExternalAccountServiceType : Option String := none
  ExternalAccountAccountID : Option String := none
  ExternalAccountLogin : Option String := none
deriving DecidableEq, Repr

/-- The struct `database.UsersListOptions`, with the two fields set here. -/
structure UsersListOptions where
  UserIDs : List Int := []
  Usernames : List String := []
deriving DecidableEq, Repr

/-- The struct `database.ExternalAccountsListOptions`, with the two fields set here. -/
structure ExternalAccountsListOptions where
  ServiceType : String
  ServiceID : String
deriving DecidableEq, Repr

/-- The fields of an external account that are read here; `Login` is
`PublicAccountData.Login`. -/
structure ExternalAccount where
  UserID : Int
  AccountID : String
  Login : Option String
deriving DecidableEq, Repr

/-- How a call ends without a result: with a returned `error`, or with the panic
of a nil pointer dereference. -/
inductive Failure where
  | error (msg : String)
  | panic
deriving DecidableEq, Repr

/-- The collaborators of `usersForTeamMembers`, which are not in this file: the
function `UnmarshalUserID` and the store calls `db.Users().List`,
`db.Users().GetByVerifiedEmail`, `db.Users().GetByID` and
`db.UserExternalAccounts().List`. Each gives its result or the message of its
error. -/
structure Collaborators (User : Type) where
  UnmarshalUserID : String → Except String Int
  UsersList : UsersListOptions → Except String (List User)
  UsersGetByVerifiedEmail : String → Except String User
  UsersGetByID : Int → Except String User
  UserExternalAccountsList : ExternalAccountsListOptions → Except String (List ExternalAccount)

/-- A returned `error` of a collaborator is returned by the caller. -/
def liftErr {α : Type} : Except String α → Except Failure α
  | .ok a => .ok a
  | .error e => .error (.error e)

/-- The first loop of `usersForTeamMembers`: the user IDs of the members that
have an `ID`. -/
def collectIDs {User : Type} (db : Collaborators User) :
    List TeamMemberInput → Except Failure (List Int)
  | [] => .ok []
  | m :: ms =>
    match m.ID with
    | some gid =>
      match db.UnmarshalUserID gid with
      | .error e => .error (.error e)
      | .ok id =>
        match collectIDs db ms with
        | .error e => .error e
        | .ok ids => .ok (id :: ids)
    | none => collectIDs db ms

/-- The second loop: the usernames of the members that have no `ID`. -/
def collectUsernames : List TeamMemberInput → List String
  | [] => []
  | m :: ms =>
    if m.ID ≠ none then collectUsernames ms
    else
      match m.Username with
      | some u => u :: collectUsernames ms
      | none => collectUsernames ms

/-- The third loop: the users of the members that have an `Email` and neither
`ID` nor `Username`, appended to `users`. -/
def appendByEmail {User : Type} (db : Collaborators User) :
    List TeamMemberInput → List User → Except Failure (List User)
  | [], users => .ok users
  | m :: ms, users =>
    if m.ID ≠ none then appendByEmail db ms users
    else if m.Username ≠ none then appendByEmail db ms users
    else
      match m.Email with
      | some email =>
        match db.UsersGetByVerifiedEmail email with
        | .error e => .error (.error e)
        | .ok user => appendByEmail db ms (users ++ [user])
      | none => appendByEmail db ms users

/-- The inner loop over the external accounts `eas` of one member: the user of the
first matching account (`found`, after `break`), or nothing. -/
def findExternalAccountUser {User : Type} (db : Collaborators User) (m : TeamMemberInput) :
    List ExternalAccount → Except Failure (Option User)
  | [] => .ok none
  | ea :: eas =>
    match m.ExternalAccountAccountID with
    | some accountID =>
      if ea.AccountID = accountID then
        match db.UsersGetByID ea.UserID with
        | .error e => .error (.error e)
        | .ok u => .ok (some u)
      else findExternalAccountUser db m eas
    | none =>
      match m.ExternalAccountLogin with
      | some _ =>
        match ea.Login with
        | none => findExternalAccountUser db m eas
        | some _ => .error .panic
      | none => .error (.error "must set either accountID or login for external account")

/-- The fourth loop: the members that have none of `ID`, `Username` and `Email`
are looked up by external account. -/
def appendByExternalAccount {User : Type} (db : Collaborators User) :
    List TeamMemberInput → List User → Except Failure (List User)
  | [], users => .ok users
  | m :: ms, users =>
    if m.ID ≠ none then appendByExternalAccount db ms users
    else if m.Username ≠ none then appendByExternalAccount db ms users
    else if m.Email ≠ none then appendByExternalAccount db ms users
    else
      match m.ExternalAccountServiceID, m.ExternalAccountServiceType with
      | some serviceID, some serviceType =>
        match db.UserExternalAccountsList { ServiceType := serviceType, ServiceID := serviceID } with
        | .error e => .error (.error e)
        | .ok eas =>
          if eas.length = 0 then .error (.error "no external account entry for user")
          else
            match findExternalAccountUser db m eas with
            | .error e => .error e
            | .ok (some u) => appendByExternalAccount db ms (users ++ [u])
            | .ok none => appendByExternalAccount db ms users
      | _, _ => .error (.error "must specify at least one option for each member")

/-- The function `usersForTeamMembers`. -/
def usersForTeamMembers {User : Type} (db : Collaborators User) (members : List TeamMemberInput) :
    Except Failure (List User) :=
  match collectIDs db members with
  | .error e => .error e
  | .ok ids =>
    let byID : Except Failure (List User) :=
      if ids.length > 0 then
        match db.UsersList { UserIDs := ids } with
        | .error e => .error (.error e)
        | .ok users =>
          if users.length ≠ ids.length then .error (.error "not all user IDs returned a result")
          else .ok users
      else .ok []
    match byID with
    | .error e => .error e
    | .ok users =>
      let usernames := collectUsernames members
      let byUsername : Except Failure (List User) :=
        if usernames.length > 0 then
          match db.UsersList { Usernames := usernames } with
          | .error e => .error (.error e)
          | .ok us =>
            if us.length ≠ ids.length then .error (.error "not all usernames returned a result")
            else .ok (users ++ us)
        else .ok users
      match byUsername with
      | .error e => .error e
      | .ok users =>
        match appendByEmail db members users with
        | .error e => .error e
        | .ok users => appendByExternalAccount db members users

/-- A store with the two users `alice` and `bob`, named by their usernames: a
lookup by usernames returns the usernames that are known, every other call
fails. -/
def twoUsers : Collaborators String where
  UnmarshalUserID := fun _ => .error "invalid user ID"
  UsersList := fun opts => .ok (opts.Usernames.filter fun u => u = "alice" ∨ u = "bob")
  UsersGetByVerifiedEmail := fun _ => .error "no such email"
  UsersGetByID := fun _ => .error "no such user"
  UserExternalAccountsList := fun _ => .error "no such account"

end graphqlbackend

/-! ## The page assembler of the specification -/

namespace spec

/-- The page returned to the caller. -/
structure Page (Row : Type) where
  rows : List Row
  hasNextPage : Bool
  hasPreviousPage : Bool
deriving DecidableEq, Repr

/-- Modelled from the spec: the store executor, which is not in this repository's
pagination helper. It returns the rows that match the plan, already in the
plan's order (`available`), cut at the plan's limit; the limit 0 is unbounded. -/
def fetch {Row : Type} (available : List Row) (limit : Nat) : List Row :=
  if limit = 0 then available else available.take limit

/-- Modelled from the spec: the page assembler `finish(rows, requestedLimit, flipped)`
of section 4.5, which is not in this repository's pagination helper. With the
limit 0 all rows are returned and both flags are false. Otherwise, when there are
more rows than the limit, the trailing lookahead row is dropped and the forward
flag is set (`hasNextPage` if not flipped, else `hasPreviousPage`); the opposite
flag is set iff the cursor of that side was supplied (`after` if not flipped,
`before` if flipped); a flipped page is reversed. -/
def finish {Row : Type} (rows : List Row) (requestedLimit : Nat) (flipped : Bool)
    (afterSupplied beforeSupplied : Bool) : Page Row :=
  if requestedLimit = 0 then { rows := rows, hasNextPage := false, hasPreviousPage := false }
  else
    let more := decide (rows.length > requestedLimit)
    let trimmed := if more then rows.dropLast else rows
    let back := if flipped then beforeSupplied else afterSupplied
    { rows := if flipped then trimmed.reverse else trimmed
      hasNextPage := if flipped then back else more
      hasPreviousPage := if flipped then more else back }

/-- The rest of `s` after the prefix `pre`, if `s` starts with it. -/
def stripPrefix : List Char → List Char → Option (List Char)
  | [], s => some s
  | _ :: _, [] => none
  | c :: pre, d :: s => if c = d then stripPrefix pre s else none

/-- Modelled from the spec: the comparison operators of the store executor, which
is not in this repository, each with its reading on integer keys: the strict
`>` and `<`, the non-strict `>=` and `<=`, and `=`. -/
def operators : List (String × (Int → Int → Bool)) :=
  [(">", fun key value => decide (key > value)),
   ("<", fun key value => decide (key < value)),
   (">=", fun key value => decide (key ≥ value)),
   ("<=", fun key value => decide (key ≤ value)),
   ("=", fun key value => decide (key = value))]

/-- Modelled from the spec: how the store executor, which is not in this
repository, reads one boundary comparison on a row. The text of the comparison
is `field op value`, with single blanks; `value` is the decimal text of an `int32`
cursor; the row, whose `field` has the integer `key`, is matched iff `key op value`
holds. Any other text is not read. -/
def selects (field : String) (key : Int) (comparison : sqlf.Query) : Option Bool :=
  match stripPrefix (field.data ++ [' ']) comparison.fmt.data with
  | none => none
  | some rest =>
    operators.findSome? fun op =>
      match stripPrefix (op.1.data ++ [' ']) rest with
      | none => none
      | some value =>
        match strconv.ParseInt (String.mk value) 10 32 with
        | (cursor, none) => some (op.2 key cursor)
        | (_, some _) => none

/-- Modelled from the spec: the predicate of a plan is the conjunction of its
comparisons, so the store executor returns a row iff every comparison matches
it. -/
def selectsAll (field : String) (key : Int) (comparisons : List sqlf.Query) : Bool :=
  comparisons.all fun comparison => selects field key comparison = some true

end spec

/-! ## Facts about the query builder -/

namespace sqlf

theorem escapePercent_literal : ∀ l : List Char, '%' ∉ l → escapePercent l = l
  | [], _ => rfl
  | [_], _ => rfl
  | c :: d :: rest, h => by
    have hc : c ≠ '%' := fun e => h (by simp [e])
    have hrest : '%' ∉ d :: rest := fun e => h (List.mem_cons_of_mem _ e)
    simp [escapePercent, hc, escapePercent_literal (d :: rest) hrest]

theorem goSprintfLoop_literal : ∀ (l : List Char) (fuel : Nat), l.length ≤ fuel → '%' ∉ l →
    goSprintfLoop fuel l [] = l
  | [], fuel, _, _ => by cases fuel <;> rfl
  | c :: rest, 0, hlen, _ => by simp at hlen
  | c :: rest, fuel + 1, hlen, h => by
    have hc : c ≠ '%' := fun e => h (by simp [e])
    have hrest : '%' ∉ rest := fun e => h (List.mem_cons_of_mem _ e)
    have hl : rest.length ≤ fuel := by simpa using hlen
    simp [goSprintfLoop, hc, goSprintfLoop_literal rest fuel hl hrest]

theorem goSprintf_literal (l : List Char) (h : '%' ∉ l) : goSprintf l [] = l :=
  goSprintfLoop_literal l l.length (Nat.le_refl _) h

/-- A format without `%` and without operands is the text of the query. -/
theorem Sprintf_literal (s : String) (h : '%' ∉ s.data) : Sprintf s [] = ⟨s, []⟩ := by
  simp [Sprintf, escapePercent_literal _ h, goSprintf_literal _ h]

/-- The call `sqlf.Sprintf("%v", q)` returns a query equal to `q`. -/
theorem Sprintf_v (q : Query) : Sprintf "%v" [.query q] = q := by
  cases q with
  | mk f a =>
    simp [Sprintf, Operand.format, Operand.args]
    show String.mk (goSprintf (escapePercent ['%', 'v']) [f]) = f
    have hv : fromVerb ['v'] = ['v'] := by decide
    simp [escapePercent, goSprintf, goSprintfLoop, hv, extraOperands]

/-- Joining a single query returns a query equal to it. -/
theorem Join_singleton (q : Query) (sep : String) : Join [q] sep = q := by
  cases q with
  | mk f a => simp [Join, String.intercalate, String.intercalate.go]

/-- A value operand becomes the placeholder `%s` and the only bound value. -/
theorem Sprintf_limit (n : Int) : Sprintf "LIMIT %d" [.value (.int n)] = ⟨"LIMIT %s", [.int n]⟩ := by
  simp [Sprintf, Operand.format, Operand.args]
  decide

end sqlf

/-! ## Facts about `PaginationArgs.SQL` -/

namespace database

/-- The defaulted key list is never empty, so `orderBy[0]` is in range. -/
theorem PaginationArgs.orderBy_ne_nil (p : PaginationArgs) : p.orderBy ≠ [] := by
  unfold PaginationArgs.orderBy
  split
  · simp
  · intro h
    simp_all

theorem PaginationArgs.orderBy_nil (p : PaginationArgs) (h : p.OrderBy = []) :
    p.orderBy = [{ Field := "id" }] := by
  simp [PaginationArgs.orderBy, h]

theorem PaginationArgs.orderBy_cons (p : PaginationArgs) (c : OrderByOption) (t : database.OrderBy)
    (h : p.OrderBy = c :: t) : p.orderBy = c :: t := by
  simp [PaginationArgs.orderBy, h]

theorem PaginationArgs.orderByColumn_nil (p : PaginationArgs) (h : p.OrderBy = []) :
    p.orderByColumn = { Field := "id" } := by
  simp [PaginationArgs.orderByColumn, p.orderBy_nil h]

theorem PaginationArgs.orderByColumn_cons (p : PaginationArgs) (c : OrderByOption) (t : database.OrderBy)
    (h : p.OrderBy = c :: t) : p.orderByColumn = c := by
  simp [PaginationArgs.orderByColumn, p.orderBy_cons c t h]

/-- The comparisons collected for the `After` and the `Before` cursor, in this order. -/
theorem PaginationArgs.conditions_eq (p : PaginationArgs) :
    p.conditions =
      (p.After.toList.map fun a =>
        sqlf.Sprintf (p.orderByColumn.Field ++ (if p.Ascending then " > " else " < ") ++ a) [])
      ++ (p.Before.toList.map fun b =>
        sqlf.Sprintf (p.orderByColumn.Field ++ (if p.Ascending then " < " else " > ") ++ b) []) := by
  unfold PaginationArgs.conditions
  cases p.After <;> cases p.Before <;> cases p.Ascending <;> simp [String.append_assoc]

theorem PaginationArgs.SQL_Where (p : PaginationArgs) :
    p.SQL.Where = if p.conditions = [] then none else some (sqlf.Join p.conditions "AND ") := by
  unfold PaginationArgs.SQL
  cases hc : p.conditions <;> cases p.First <;> cases p.Last <;> simp [sqlf.Sprintf_v]

theorem PaginationArgs.SQL_Order (p : PaginationArgs) :
    p.SQL.Order = some (database.OrderBy.SQL p.orderBy
      (if p.First = none ∧ p.Last ≠ none then !p.Ascending else p.Ascending)) := by
  unfold PaginationArgs.SQL
  cases p.First <;> cases p.Last <;> simp

theorem PaginationArgs.SQL_Limit (p : PaginationArgs) :
    p.SQL.Limit = (p.First.orElse fun _ => p.Last).map fun n =>
      sqlf.Sprintf "LIMIT %d" [.value (.int n)] := by
  unfold PaginationArgs.SQL
  cases p.First <;> cases p.Last <;> simp
  split <;> rfl

end database

/-! ## The ordering of the compiled query -/

namespace database

theorem not_mem_cmp_text (f op v : String) (hf : '%' ∉ f.data) (hop : '%' ∉ op.data)
    (hv : '%' ∉ v.data) : '%' ∉ (f ++ op ++ v).data := by
  simp [String.data_append, hf, hop, hv]

/-- The text `OrderByOption.SQL` hands to `sqlf.Sprintf`. -/
theorem OrderByOption.SQL_eq (o : OrderByOption) (ascending : Bool) :
    o.SQL ascending = sqlf.Sprintf
      (o.Field ++ (if ascending then " ASC" else " DESC")
        ++ (if o.Nulls = "FIRST" then " NULLS FIRST"
            else if o.Nulls = "LAST" then " NULLS LAST" else "")) [] := by
  unfold OrderByOption.SQL
  by_cases hF : o.Nulls = "FIRST"
  · cases ascending <;> simp [hF, String.append_assoc]
  · by_cases hL : o.Nulls = "LAST"
    · cases ascending <;> simp [hL, String.append_assoc]
    · cases ascending <;> simp [hF, hL]

theorem OrderByOption.SQL_literal (o : OrderByOption) (ascending : Bool) (hf : '%' ∉ o.Field.data) :
    o.SQL ascending =
      ⟨o.Field ++ (if ascending then " ASC" else " DESC")
        ++ (if o.Nulls = "FIRST" then " NULLS FIRST"
            else if o.Nulls = "LAST" then " NULLS LAST" else ""), []⟩ := by
  rw [OrderByOption.SQL_eq]
  apply sqlf.Sprintf_literal
  apply not_mem_cmp_text _ _ _ hf
  · cases ascending <;> decide
  · split
    · decide
    · split <;> decide

theorem Join_literal (texts : List String) (sep : String) :
    sqlf.Join (texts.map fun t => (⟨t, []⟩ : sqlf.Query)) sep
      = ⟨(" " ++ sep ++ " ").intercalate texts, []⟩ := by
  simp only [sqlf.Join, List.map_map]
  congr 1
  · congr 1
    exact List.map_id' _
  · simp [List.flatMap_eq_nil_iff]


/-- C1: a request whose `OrderBy` is empty compiles exactly like the same request
with the single key `id`: the `Order` is the one key `id` in the resolved
direction, and the `Where`, when there is one, joins comparisons of the field
`id` with the `After` and `Before` cursors. -/
theorem SQL_empty_orderBy_is_id (p : PaginationArgs) (h : p.OrderBy = []) :
    p.SQL = PaginationArgs.SQL { p with OrderBy := [{ Field := "id" }] }
    ∧ p.SQL.Order = some (sqlf.Join
        [OrderByOption.SQL { Field := "id" }
          (if p.First = none ∧ p.Last ≠ none then !p.Ascending else p.Ascending)] ", ")
    ∧ ∀ w, p.SQL.Where = some w →
        w = sqlf.Join
          ((p.After.toList.map fun a =>
              sqlf.Sprintf ("id" ++ (if p.Ascending then " > " else " < ") ++ a) [])
            ++ (p.Before.toList.map fun b =>
              sqlf.Sprintf ("id" ++ (if p.Ascending then " < " else " > ") ++ b) [])) "AND " := by
  refine ⟨?_, ?_, ?_⟩
  · cases p
    simp only at h
    subst h
    rfl
  · rw [p.SQL_Order, p.orderBy_nil h]
    rfl
  · intro w hw
    rw [p.SQL_Where] at hw
    by_cases hc : p.conditions = []
    · simp [hc] at hw
    · rw [if_neg hc] at hw
      rw [← Option.some.inj hw, p.conditions_eq, p.orderByColumn_nil h]

/-- At the request `first: 3, after: "7"` without keys, descending base order. -/
theorem SQL_empty_orderBy_is_id_witness :
    noKeysRequest.OrderBy = []
    ∧ noKeysRequest.SQL
        = { Where := some ⟨"id < 7", []⟩, Order := some ⟨"id DESC", []⟩,
            Limit := some ⟨"LIMIT %s", [.int 3]⟩ }
    ∧ noKeysRequest.SQL = PaginationArgs.SQL { noKeysRequest with OrderBy := [{ Field := "id" }] } :=
  ⟨rfl, by decide, (SQL_empty_orderBy_is_id noKeysRequest rfl).1⟩

/-- C2: the `Order` lists every key of the defaulted `OrderBy` in the given
sequence, each as its field followed by ` ASC` or ` DESC` (and its null placement),
all with one direction: the base `Ascending` when `First` is set or when neither
`First` nor `Last` is, and its negation exactly when `Last` is set and `First` is
not. A last-only request has the `Order` of the same request with `First` in place
of `Last` and `Ascending` negated. When no field contains `%`, the text of the
`Order` is the texts of the keys joined by ` ,  `. -/
theorem SQL_Order_direction (p : PaginationArgs) :
    p.SQL.Order = some (sqlf.Join
        ((if p.OrderBy = [] then [{ Field := "id" }] else p.OrderBy).map fun o =>
          sqlf.Sprintf
            (o.Field
              ++ (if (if p.First = none ∧ p.Last ≠ none then !p.Ascending else p.Ascending)
                  then " ASC" else " DESC")
              ++ (if o.Nulls = "FIRST" then " NULLS FIRST"
                  else if o.Nulls = "LAST" then " NULLS LAST" else "")) []) ", ")
    ∧ p.SQL.Order = some (sqlf.Join
        ((if p.OrderBy = [] then [{ Field := "id" }] else p.OrderBy).map fun o =>
          o.SQL (if p.First = none ∧ p.Last ≠ none then !p.Ascending else p.Ascending)) ", ")
    ∧ (∀ n : Int,
        (PaginationArgs.SQL { p with First := none, Last := some n }).Order
          = (PaginationArgs.SQL
              { p with First := some n, Last := none, Ascending := !p.Ascending }).Order)
    ∧ ((∀ o ∈ (if p.OrderBy = [] then [{ Field := "id" }] else p.OrderBy), '%' ∉ o.Field.data) →
        p.SQL.Order = some
          ⟨" ,  ".intercalate
            ((if p.OrderBy = [] then [{ Field := "id" }] else p.OrderBy).map fun o =>
              o.Field
                ++ (if (if p.First = none ∧ p.Last ≠ none then !p.Ascending else p.Ascending)
                    then " ASC" else " DESC")
                ++ (if o.Nulls = "FIRST" then " NULLS FIRST"
                    else if o.Nulls = "LAST" then " NULLS LAST" else "")), []⟩) := by
  have hkeys : p.orderBy = if p.OrderBy = [] then [{ Field := "id" }] else p.OrderBy := by
    unfold PaginationArgs.orderBy
    cases p.OrderBy <;> simp
  have h2 : p.SQL.Order = some (sqlf.Join
      ((if p.OrderBy = [] then [{ Field := "id" }] else p.OrderBy).map fun o =>
        o.SQL (if p.First = none ∧ p.Last ≠ none then !p.Ascending else p.Ascending)) ", ") := by
    have hO : p.SQL.Order = some (database.OrderBy.SQL p.orderBy
        (if p.First = none ∧ p.Last ≠ none then !p.Ascending else p.Ascending)) := by
      unfold PaginationArgs.SQL
      cases p.First <;> cases p.Last <;> simp
    rw [hO, hkeys]
    rfl
  refine ⟨?_, h2, ?_, ?_⟩
  · rw [h2]
    congr 3
    funext o
    unfold OrderByOption.SQL
    generalize (if p.First = none ∧ p.Last ≠ none then !p.Ascending else p.Ascending) = d
    by_cases hF : o.Nulls = "FIRST"
    · cases d <;> simp [hF, String.append_assoc]
    · by_cases hL : o.Nulls = "LAST"
      · cases d <;> simp [hL, String.append_assoc]
      · cases d <;> simp [hF, hL]
  · intro n
    rw [PaginationArgs.SQL_Order, PaginationArgs.SQL_Order]
    simp [PaginationArgs.orderBy]
  · intro hfree
    rw [h2]
    generalize (if p.OrderBy = [] then [{ Field := "id" }] else p.OrderBy) = ks at hfree ⊢
    generalize (if p.First = none ∧ p.Last ≠ none then !p.Ascending else p.Ascending) = d
    have hsep : (" " ++ ", " ++ " ") = " ,  " := by decide
    have hj := Join_literal (ks.map fun o =>
      o.Field ++ (if d then " ASC" else " DESC")
        ++ (if o.Nulls = "FIRST" then " NULLS FIRST"
            else if o.Nulls = "LAST" then " NULLS LAST" else "")) ", "
    rw [hsep, List.map_map] at hj
    rw [← hj]
    congr 2
    apply List.map_congr_left
    intro o ho
    exact OrderByOption.SQL_literal o d (hfree o ho)

/-- At the scenarios: `first: 2` ascending orders by `id ASC`; `last: 2` ascending
by `id DESC`; `first: 2, last: 3` ascending by `id ASC`; no count, ascending, by
`name ASC`; `last: 2` on two keys by `id DESC ,  name DESC NULLS LAST`. -/
theorem SQL_Order_direction_witness :
    roundTripRequest.SQL.Order = some ⟨"id ASC", []⟩
    ∧ backwardRequest.SQL.Order = some ⟨"id DESC", []⟩
    ∧ bothCountsRequest.SQL.Order = some ⟨"id ASC", []⟩
    ∧ unboundedRequest.SQL.Order = some ⟨"name ASC", []⟩
    ∧ (PaginationArgs.SQL { backwardRequest with Ascending := false }).Order
        = some ⟨"id ASC", []⟩
    ∧ (∀ o ∈ (if betweenRequest.OrderBy = [] then [{ Field := "id" }] else betweenRequest.OrderBy),
        '%' ∉ o.Field.data)
    ∧ betweenRequest.SQL.Order = some ⟨"id DESC ,  name DESC NULLS LAST", []⟩ :=
  ⟨by decide, by decide, by decide, by decide, by decide, by decide,
    ((SQL_Order_direction betweenRequest).2.2.2 (by decide)).trans (by decide)⟩

/-- C3, as stated, fails: `First = 2` compiles to a `LIMIT` bound to 2, not to 3. -/
theorem SQL_Limit_not_lookahead :
    roundTripRequest.First = some 2
    ∧ roundTripRequest.SQL
      = { Where := none, Order := some ⟨"id ASC", []⟩, Limit := some ⟨"LIMIT %s", [.int 2]⟩ }
    ∧ roundTripRequest.SQL.Limit ≠ some (sqlf.Sprintf "LIMIT %d" [.value (.int (2 + 1))]) := by
  decide

/-- C3, amended: the limit emitted is the page size itself, `*First` when `First`
is set and otherwise `*Last`: the query is `LIMIT %s` with that number as its only
bound value, and no lookahead row is added. -/
theorem SQL_Limit_is_page_size (p : PaginationArgs) (n : Int)
    (h : p.First = some n ∨ (p.First = none ∧ p.Last = some n)) :
    p.SQL.Limit = some (sqlf.Sprintf "LIMIT %d" [.value (.int n)])
    ∧ p.SQL.Limit = some ⟨"LIMIT %s", [.int n]⟩ := by
  have hl : p.SQL.Limit = some (sqlf.Sprintf "LIMIT %d" [.value (.int n)]) := by
    rw [p.SQL_Limit]
    rcases h with h | ⟨h1, h2⟩
    · simp [h]
    · simp [h1, h2]
  exact ⟨hl, by rw [hl, sqlf.Sprintf_limit]⟩

/-- At the backward scenario, `last: 2`: the limit is bound to 2. -/
theorem SQL_Limit_is_page_size_witness :
    (backwardRequest.First = some 2 ∨ (backwardRequest.First = none ∧ backwardRequest.Last = some 2))
    ∧ backwardRequest.SQL.Limit = some ⟨"LIMIT %s", [.int 2]⟩ :=
  ⟨Or.inr ⟨rfl, rfl⟩, (SQL_Limit_is_page_size backwardRequest 2 (Or.inr ⟨rfl, rfl⟩)).2⟩

/-- C4: with neither `First` nor `Last` the compiled query has no `Limit` and its
`Order` is the defaulted `OrderBy` in the base direction `Ascending`; and the
`Limit` is absent only in that case. -/
theorem SQL_no_Limit_iff (p : PaginationArgs) :
    (p.SQL.Limit = none ↔ p.First = none ∧ p.Last = none)
    ∧ (p.First = none ∧ p.Last = none →
        p.SQL.Order = some (database.OrderBy.SQL
          (if p.OrderBy = [] then [{ Field := "id" }] else p.OrderBy) p.Ascending)) := by
  refine ⟨?_, ?_⟩
  · rw [p.SQL_Limit]
    cases p.First <;> cases p.Last <;> simp
  · rintro ⟨h1, h2⟩
    rw [p.SQL_Order]
    unfold PaginationArgs.orderBy
    cases p.OrderBy <;> simp [h1, h2]

/-- At the unbounded request ordered by `name`, ascending. -/
theorem SQL_no_Limit_iff_witness :
    (unboundedRequest.First = none ∧ unboundedRequest.Last = none)
    ∧ unboundedRequest.SQL.Limit = none
    ∧ unboundedRequest.SQL.Order = some ⟨"name ASC", []⟩ :=
  ⟨⟨rfl, rfl⟩, (SQL_no_Limit_iff unboundedRequest).1.2 ⟨rfl, rfl⟩,
    ((SQL_no_Limit_iff unboundedRequest).2 ⟨rfl, rfl⟩).trans (by decide)⟩

end database

/-! ## The boundary comparisons of the compiled query -/

namespace database

theorem PaginationArgs.Where_of_After (p : PaginationArgs) (a : String) (h : p.After = some a) :
    p.SQL.Where = some (sqlf.Join
      (sqlf.Sprintf (p.orderByColumn.Field ++ (if p.Ascending then " > " else " < ") ++ a) []
        :: p.Before.toList.map fun b =>
          sqlf.Sprintf (p.orderByColumn.Field ++ (if p.Ascending then " < " else " > ") ++ b) [])
      "AND ") := by
  rw [p.SQL_Where, p.conditions_eq, h]
  simp

theorem PaginationArgs.Where_of_Before (p : PaginationArgs) (b : String) (h : p.Before = some b) :
    p.SQL.Where = some (sqlf.Join
      ((p.After.toList.map fun a =>
          sqlf.Sprintf (p.orderByColumn.Field ++ (if p.Ascending then " > " else " < ") ++ a) [])
        ++ [sqlf.Sprintf (p.orderByColumn.Field ++ (if p.Ascending then " < " else " > ") ++ b) []])
      "AND ") := by
  rw [p.SQL_Where, p.conditions_eq, h]
  simp

theorem PaginationArgs.conditions_strict (p : PaginationArgs) :
    ∀ c ∈ p.conditions, ∃ v,
      c = sqlf.Sprintf (p.orderByColumn.Field ++ " > " ++ v) []
      ∨ c = sqlf.Sprintf (p.orderByColumn.Field ++ " < " ++ v) [] := by
  intro c hc
  rw [p.conditions_eq] at hc
  rcases List.mem_append.1 hc with h | h
  · obtain ⟨a, _, rfl⟩ := List.mem_map.1 h
    exact ⟨a, by cases p.Ascending <;> simp⟩
  · obtain ⟨b, _, rfl⟩ := List.mem_map.1 h
    exact ⟨b, by cases p.Ascending <;> simp⟩

/-- C6, as stated, fails: in the backward scenario, `last: 2, before: "4"` on `id`
with `Ascending` true, the effective flag is false, for which the claim gives
`id > 4`; the compiled `Where` is `id < 4`. -/
theorem SQL_Where_flipped_not_effective :
    backwardRequest.SQL.Where = some ⟨"id < 4", []⟩
    ∧ backwardRequest.SQL.Where
      ≠ some (sqlf.Join
        [sqlf.Sprintf ("id" ++ (if !backwardRequest.Ascending then " < " else " > ") ++ "4") []]
        "AND ") := by
  decide

/-- C6, amended: for a request where `Last` is set and `First` is not, the
boundary comparisons are chosen by the base flag `Ascending`, as for a request
that is not flipped: `After = a` gives `f > a` when `Ascending` is true and `f < a`
otherwise, `Before = b` gives `f < b` when `Ascending` is true and `f > b`
otherwise; the `Where` is the one of the same request with `First` in place of
`Last`. -/
theorem SQL_Where_flipped (p : PaginationArgs) (n : Int) (_h : p.First = none ∧ p.Last = some n) :
    (∀ a, p.After = some a → ∃ post, p.SQL.Where = some (sqlf.Join
        (sqlf.Sprintf (p.orderByColumn.Field ++ (if p.Ascending then " > " else " < ") ++ a) []
          :: post) "AND "))
    ∧ (∀ b, p.Before = some b → ∃ pre, p.SQL.Where = some (sqlf.Join
        (pre ++ [sqlf.Sprintf
          (p.orderByColumn.Field ++ (if p.Ascending then " < " else " > ") ++ b) []]) "AND "))
    ∧ p.SQL.Where = (PaginationArgs.SQL { p with First := some n, Last := none }).Where := by
  refine ⟨fun a ha => ⟨_, p.Where_of_After a ha⟩, fun b hb => ⟨_, p.Where_of_Before b hb⟩, ?_⟩
  rw [PaginationArgs.SQL_Where, PaginationArgs.SQL_Where]
  rfl

/-- At the backward scenario, `last: 2, before: "4"` on `id` ascending: the
`Where` is `id < 4`, as for `first: 2, before: "4"`. -/
theorem SQL_Where_flipped_witness :
    (backwardRequest.First = none ∧ backwardRequest.Last = some 2)
    ∧ (∃ pre, backwardRequest.SQL.Where
        = some (sqlf.Join (pre ++ [sqlf.Sprintf ("id" ++ " < " ++ "4") []]) "AND "))
    ∧ backwardRequest.SQL.Where = some ⟨"id < 4", []⟩ :=
  ⟨⟨rfl, rfl⟩, (SQL_Where_flipped backwardRequest 2 ⟨rfl, rfl⟩).2.1 "4" rfl, by decide⟩

end database

/-! ## The backward scenario, the shape of `Where`, and `Clone` -/

namespace database

/-- C7: for a request with `Last = N`, `Before = C`, `Ascending = true`, neither
`First` nor `After`, and the single key `f`, the `Where` is the comparison
`f < C` and the `Order` is the key `f` rendered descending; when the field and
the cursor contain no `%` the text of the `Where` is literally `f < C`, and when
moreover the key has no null placement the text of the `Order` is `f DESC`. -/
theorem SQL_last_before_ascending (p : PaginationArgs) (N : Int) (C : String) (f : OrderByOption)
    (hFirst : p.First = none) (hLast : p.Last = some N) (hAfter : p.After = none)
    (hBefore : p.Before = some C) (hAsc : p.Ascending = true) (hOrderBy : p.OrderBy = [f]) :
    p.SQL.Where = some (sqlf.Sprintf (f.Field ++ " < " ++ C) [])
    ∧ p.SQL.Order = some (f.SQL false)
    ∧ ('%' ∉ f.Field.data → '%' ∉ C.data → p.SQL.Where = some ⟨f.Field ++ " < " ++ C, []⟩)
    ∧ ('%' ∉ f.Field.data → f.Nulls ≠ "FIRST" → f.Nulls ≠ "LAST" →
        p.SQL.Order = some ⟨f.Field ++ " DESC", []⟩) := by
  have hw : p.SQL.Where = some (sqlf.Sprintf (f.Field ++ " < " ++ C) []) := by
    rw [p.Where_of_Before C hBefore, hAfter, hAsc, p.orderByColumn_cons f [] hOrderBy]
    simp [sqlf.Join_singleton]
  have ho : p.SQL.Order = some (f.SQL false) := by
    rw [p.SQL_Order, p.orderBy_cons f [] hOrderBy, hFirst, hLast, hAsc]
    simp [OrderBy.SQL, sqlf.Join_singleton]
  refine ⟨hw, ho, ?_, ?_⟩
  · intro hf hC
    rw [hw, sqlf.Sprintf_literal _ (not_mem_cmp_text f.Field " < " C hf (by decide) hC)]
  · intro hf h1 h2
    have hd : '%' ∉ (f.Field ++ " DESC").data := by
      have := not_mem_cmp_text f.Field " DESC" "" hf (by decide) (by decide)
      simpa using this
    rw [ho]
    simp [OrderByOption.SQL, h1, h2, sqlf.Sprintf_literal _ hd]

/-- At the backward scenario, `last: 2, before: "4"` on `id` ascending: the
`Where` is `id < 4` and the `Order` is `id DESC`. -/
theorem SQL_last_before_ascending_witness :
    backwardRequest.SQL.Where = some ⟨"id < 4", []⟩
    ∧ backwardRequest.SQL.Order = some ⟨"id DESC", []⟩ :=
  ⟨(SQL_last_before_ascending backwardRequest 2 "4" { Field := "id" } rfl rfl rfl rfl rfl rfl).2.2.1
      (by decide) (by decide),
    (SQL_last_before_ascending backwardRequest 2 "4" { Field := "id" } rfl rfl rfl rfl rfl rfl).2.2.2
      (by decide) (by decide) (by decide)⟩

/-- C8: the compiled query has a `Where` iff `After` or `Before` is set. With
neither there is none; with exactly one it is that single comparison; with both it
is the comparison of `After` joined by `AND` with the comparison of `Before`, in
this order. -/
theorem SQL_Where_shape (p : PaginationArgs) :
    (p.SQL.Where ≠ none ↔ p.After ≠ none ∨ p.Before ≠ none)
    ∧ (p.After = none → p.Before = none → p.SQL.Where = none)
    ∧ (∀ a, p.After = some a → p.Before = none →
        p.SQL.Where = some (sqlf.Sprintf
          (p.orderByColumn.Field ++ (if p.Ascending then " > " else " < ") ++ a) []))
    ∧ (∀ b, p.After = none → p.Before = some b →
        p.SQL.Where = some (sqlf.Sprintf
          (p.orderByColumn.Field ++ (if p.Ascending then " < " else " > ") ++ b) []))
    ∧ (∀ a b, p.After = some a → p.Before = some b →
        p.SQL.Where = some (sqlf.Join
          [sqlf.Sprintf (p.orderByColumn.Field ++ (if p.Ascending then " > " else " < ") ++ a) [],
           sqlf.Sprintf (p.orderByColumn.Field ++ (if p.Ascending then " < " else " > ") ++ b) []]
          "AND ")) := by
  refine ⟨?_, ?_, ?_, ?_, ?_⟩
  · rw [p.SQL_Where, p.conditions_eq]
    cases p.After <;> cases p.Before <;> simp
  · intro ha hb
    rw [p.SQL_Where, p.conditions_eq, ha, hb]
    simp
  · intro a ha hb
    rw [p.Where_of_After a ha, hb]
    simp [sqlf.Join_singleton]
  · intro b ha hb
    rw [p.Where_of_Before b hb, ha]
    simp [sqlf.Join_singleton]
  · intro a b ha hb
    rw [p.Where_of_After a ha, hb]
    simp

/-- At the request between two cursors, `after: "1", before: "4"` on `id`
ascending: the `Where` is `id > 1 AND  id < 4`. -/
theorem SQL_Where_shape_witness :
    (betweenRequest.After = some "1" ∧ betweenRequest.Before = some "4")
    ∧ betweenRequest.SQL.Where
        = some (sqlf.Join [sqlf.Sprintf ("id" ++ " > " ++ "1") [],
            sqlf.Sprintf ("id" ++ " < " ++ "4") []] "AND ")
    ∧ betweenRequest.SQL.Where = some ⟨"id > 1 AND  id < 4", []⟩ :=
  ⟨⟨rfl, rfl⟩, (SQL_Where_shape betweenRequest).2.2.2.2 "1" "4" rfl rfl, by decide⟩

/-- C9: two requests that differ only in their non-empty `OrderBy`, with the same
first field, compile to the same `Where`: of the keys only the first field goes
into the `WHERE` clause, while the `Order` lists every key. -/
theorem SQL_Where_first_key_only (p : PaginationArgs) (c c' : OrderByOption)
    (t t' : List OrderByOption) (h : c.Field = c'.Field) :
    (PaginationArgs.SQL { p with OrderBy := c :: t }).Where
      = (PaginationArgs.SQL { p with OrderBy := c' :: t' }).Where
    ∧ (PaginationArgs.SQL { p with OrderBy := c :: t }).Order
      = some (sqlf.Join ((c :: t).map fun o =>
          o.SQL (if p.First = none ∧ p.Last ≠ none then !p.Ascending else p.Ascending)) ", ") := by
  refine ⟨?_, ?_⟩
  · rw [PaginationArgs.SQL_Where, PaginationArgs.SQL_Where, PaginationArgs.conditions_eq,
      PaginationArgs.conditions_eq, PaginationArgs.orderByColumn_cons _ c t rfl,
      PaginationArgs.orderByColumn_cons _ c' t' rfl, h]
  · rw [PaginationArgs.SQL_Order, PaginationArgs.orderBy_cons _ c t rfl]
    rfl

/-- At the request between two cursors: dropping its second key `name` leaves the
`Where` as it is, `id > 1 AND  id < 4`, while the `Order` lists both keys. -/
theorem SQL_Where_first_key_only_witness :
    (PaginationArgs.SQL { betweenRequest with
        OrderBy := [{ Field := "id" }, { Field := "name", Nulls := "LAST" }] }).Where
      = (PaginationArgs.SQL { betweenRequest with OrderBy := [{ Field := "id" }] }).Where
    ∧ betweenRequest.SQL.Where = some ⟨"id > 1 AND  id < 4", []⟩
    ∧ betweenRequest.SQL.Order = some ⟨"id DESC ,  name DESC NULLS LAST", []⟩ :=
  ⟨(SQL_Where_first_key_only betweenRequest { Field := "id" } { Field := "id" }
      [{ Field := "name", Nulls := "LAST" }] [] rfl).1, by decide, by decide⟩

/-- C10 fails on the code: `Clone` copies `First`, `Last`, `After` and `Before`
but leaves `OrderBy` empty and `Ascending` false. The clone of the unbounded
request on `name`, ascending, is the empty request, which compiles to the order
`id DESC` where the original compiles to `name ASC`. -/
theorem Clone_drops_OrderBy_and_Ascending :
    (∀ p : PaginationArgs, p.Clone
      = { First := p.First, Last := p.Last, After := p.After, Before := p.Before,
          OrderBy := [], Ascending := false })
    ∧ unboundedRequest.Clone ≠ unboundedRequest
    ∧ unboundedRequest.Clone.OrderBy ≠ unboundedRequest.OrderBy
    ∧ unboundedRequest.Clone.Ascending ≠ unboundedRequest.Ascending
    ∧ unboundedRequest.SQL.Order = some ⟨"name ASC", []⟩
    ∧ unboundedRequest.Clone.SQL.Order = some ⟨"id DESC", []⟩
    ∧ unboundedRequest.Clone.SQL ≠ unboundedRequest.SQL := by
  refine ⟨?_, by decide, by decide, by decide, by decide, by decide, by decide⟩
  intro p
  cases p with
  | mk f l a b o asc => cases f <;> cases l <;> cases a <;> cases b <;> rfl

end database


/-! ## `maybeQueryIsID` on decimal numbers -/

namespace strconv

theorem digit_digitChar (k : Nat) (h : k < 10) : digit (Nat.digitChar k) = some k := by
  interval_cases k <;> decide

theorem digitChar_ne_sign (k : Nat) (h : k < 10) :
    Nat.digitChar k ≠ '+' ∧ Nat.digitChar k ≠ '-' := by
  interval_cases k <;> decide

/-- The loop over a concatenation runs over the first part and, if that ends
without error, goes on over the second part. -/
theorem ParseUint.loop_append (base maxVal : Nat) (ys : List Char) :
    ∀ (xs : List Char) (n : Nat),
      ParseUint.loop base maxVal n (xs ++ ys) =
        match ParseUint.loop base maxVal n xs with
        | (m, none) => ParseUint.loop base maxVal m ys
        | (m, some e) => (m, some e)
  | [], n => by simp [ParseUint.loop]
  | c :: cs, n => by
    simp only [List.cons_append, ParseUint.loop]
    cases digit c with
    | none => simp
    | some d =>
      simp only
      split
      · rfl
      · split
        · rfl
        · split
          · rfl
          · exact ParseUint.loop_append base maxVal ys cs _

theorem toDigitsCore_append (fuel : Nat) :
    ∀ (n : Nat) (ds : List Char),
      Nat.toDigitsCore 10 fuel n ds = Nat.toDigitsCore 10 fuel n [] ++ ds := by
  induction fuel with
  | zero => intro n ds; simp [Nat.toDigitsCore]
  | succ f ih =>
    intro n ds
    simp only [Nat.toDigitsCore]
    split
    · simp
    · rw [ih (n / 10) (Nat.digitChar (n % 10) :: ds), ih (n / 10) [Nat.digitChar (n % 10)]]
      simp

theorem toDigitsCore_succ (f n : Nat) :
    Nat.toDigitsCore 10 (f + 1) n [] =
      if n / 10 = 0 then [Nat.digitChar (n % 10)]
      else Nat.toDigitsCore 10 f (n / 10) [] ++ [Nat.digitChar (n % 10)] := by
  simp only [Nat.toDigitsCore]
  split
  · rfl
  · exact toDigitsCore_append f _ _

/-- One more digit `d` after the value `n`: the value becomes `n * 10 + d` unless
that is over `maxVal`. -/
theorem ParseUint.loop_digit (M : Nat) (hM : M < 1844674407370955161) (n d : Nat) (hn : n ≤ M)
    (hd : d < 10) :
    ParseUint.loop 10 M n [Nat.digitChar d] =
      if n * 10 + d ≤ M then (n * 10 + d, none) else (M, some .ErrRange) := by
  have hcut : ¬ n ≥ (2 ^ 64 - 1) / 10 + 1 := by
    norm_num
    omega
  have hmod : (n * 10 + d) % 2 ^ 64 = n * 10 + d := by
    apply Nat.mod_eq_of_lt
    norm_num
    omega
  have hbase : ¬ d ≥ 10 := by omega
  simp only [ParseUint.loop, digit_digitChar d hd, hmod]
  rw [if_neg hbase, if_neg hcut]
  by_cases h : n * 10 + d ≤ M
  · rw [if_neg (by omega), if_pos h]
  · rw [if_pos (by omega), if_neg h]

/-- The loop over the printed digits of `n` gives `n`, or the range error when
`n` is over `maxVal`. -/
theorem ParseUint.loop_toDigitsCore (M : Nat) (hM1 : 9 ≤ M) (hM2 : M < 1844674407370955161) :
    ∀ (fuel n : Nat), n < fuel →
      ParseUint.loop 10 M 0 (Nat.toDigitsCore 10 fuel n []) =
        if n ≤ M then (n, none) else (M, some .ErrRange) := by
  intro fuel
  induction fuel with
  | zero => intro n h; omega
  | succ f ih =>
    intro n hn
    rw [toDigitsCore_succ]
    by_cases h0 : n / 10 = 0
    · rw [if_pos h0, ParseUint.loop_digit M hM2 0 (n % 10) (by omega) (Nat.mod_lt _ (by omega))]
      have hlt : n < 10 := by omega
      have hmod : n % 10 = n := Nat.mod_eq_of_lt hlt
      simp only [hmod, Nat.zero_mul, Nat.zero_add]
    · rw [if_neg h0, ParseUint.loop_append, ih (n / 10) (by omega)]
      by_cases hq : n / 10 ≤ M
      · rw [if_pos hq]
        simp only
        rw [ParseUint.loop_digit M hM2 (n / 10) (n % 10) hq (Nat.mod_lt _ (by omega))]
        have hdm : n / 10 * 10 + n % 10 = n := by omega
        rw [hdm]
      · rw [if_neg hq]
        simp only
        rw [if_neg (by omega)]

theorem toDigits_ne_nil (n : Nat) : Nat.toDigits 10 n ≠ [] := by
  unfold Nat.toDigits
  rw [toDigitsCore_succ]
  split <;> simp

/-- Every printed digit is a decimal digit character. -/
theorem mem_toDigitsCore (fuel : Nat) :
    ∀ (n : Nat) (c : Char), c ∈ Nat.toDigitsCore 10 fuel n [] → ∃ k, k < 10 ∧ c = Nat.digitChar k := by
  induction fuel with
  | zero => intro n c h; simp [Nat.toDigitsCore] at h
  | succ f ih =>
    intro n c h
    rw [toDigitsCore_succ] at h
    split at h
    · exact ⟨n % 10, Nat.mod_lt _ (by omega), by simpa using h⟩
    · rcases List.mem_append.1 h with h | h
      · exact ih _ c h
      · exact ⟨n % 10, Nat.mod_lt _ (by omega), by simpa using h⟩

/-- On the printed digits of `n`, `ParseUint` with bit size 32 gives `n`, or the
range error with the largest value when `n` does not fit. -/
theorem ParseUint_toDigits (n : Nat) :
    ParseUint (Nat.toDigits 10 n) 10 32 =
      if n ≤ 4294967295 then (n, none) else (4294967295, some .ErrRange) := by
  unfold ParseUint
  rw [if_neg (toDigits_ne_nil n)]
  exact ParseUint.loop_toDigitsCore (2 ^ 32 - 1) (by norm_num) (by norm_num) (n + 1) n (by omega)

theorem toString_ofNat_data (m : Nat) : (toString (Int.ofNat m)).data = Nat.toDigits 10 m :=
  rfl

theorem toString_negSucc_data (m : Nat) :
    (toString (Int.negSucc m)).data = '-' :: Nat.toDigits 10 (m + 1) :=
  rfl

theorem toDigits_head (n : Nat) :
    ∃ c rest, Nat.toDigits 10 n = c :: rest ∧ c ≠ '+' ∧ c ≠ '-' := by
  cases h : Nat.toDigits 10 n with
  | nil => exact absurd h (toDigits_ne_nil n)
  | cons c rest =>
    have hc : c ∈ Nat.toDigitsCore 10 (n + 1) n [] := by
      have : c ∈ Nat.toDigits 10 n := by rw [h]; exact List.mem_cons_self _ _
      exact this
    obtain ⟨k, hk, rfl⟩ := mem_toDigitsCore _ _ _ hc
    exact ⟨_, rest, rfl, digitChar_ne_sign k hk⟩

/-- On the decimal representation of `n`, `ParseInt` with bit size 32 gives `n`
when `n` is an `int32`, and the range error otherwise. -/
theorem ParseInt_toString (n : Int) :
    ParseInt (toString n) 10 32 =
      if -2147483648 ≤ n ∧ n ≤ 2147483647 then (n, none)
      else (if n < 0 then -2147483648 else 2147483647, some .ErrRange) := by
  cases n with
  | ofNat m =>
    obtain ⟨c, rest, hcr, hp, hm⟩ := toDigits_head m
    unfold ParseInt
    rw [toString_ofNat_data, hcr]
    simp only [hp, hm, if_false, eq_self_iff_true]
    rw [← hcr, ParseUint_toDigits]
    by_cases h1 : m ≤ 4294967295
    · rw [if_pos h1]
      simp
      split_ifs <;> first | rfl | omega
    · rw [if_neg h1]
      simp
      split_ifs <;> first | rfl | omega
  | negSucc m =>
    unfold ParseInt
    rw [toString_negSucc_data]
    have hs : (if '-' = '+' then Nat.toDigits 10 (m + 1) else Nat.toDigits 10 (m + 1))
        = Nat.toDigits 10 (m + 1) := by simp
    simp only [if_true, eq_self_iff_true, hs]
    rw [ParseUint_toDigits]
    have hneg : Int.negSucc m = -((m : Int) + 1) := Int.negSucc_eq m
    by_cases h1 : m + 1 ≤ 4294967295
    · rw [if_pos h1]
      simp
      split_ifs <;> first | rfl | omega | (simp [hneg])
    · rw [if_neg h1]
      simp
      split_ifs <;> first | rfl | omega

end strconv

/-! ## Boundary exclusivity -/

namespace spec

theorem stripPrefix_append : ∀ (pre rest : List Char), stripPrefix pre (pre ++ rest) = some rest
  | [], rest => by cases rest <;> rfl
  | c :: pre, rest => by simp [stripPrefix, stripPrefix_append pre rest]

theorem digitChar_ne_percent (k : Nat) (h : k < 10) : Nat.digitChar k ≠ '%' := by
  interval_cases k <;> decide

theorem toDigits_no_percent (n : Nat) : '%' ∉ Nat.toDigits 10 n := by
  intro h
  obtain ⟨k, hk, hc⟩ := strconv.mem_toDigitsCore _ _ _ h
  exact digitChar_ne_percent k hk hc.symm

/-- The decimal representation of an integer contains no `%`. -/
theorem toString_no_percent (c : Int) : '%' ∉ (toString c).data := by
  cases c with
  | ofNat m =>
    rw [strconv.toString_ofNat_data]
    exact toDigits_no_percent m
  | negSucc m =>
    rw [strconv.toString_negSucc_data]
    intro h
    rcases List.mem_cons.1 h with h | h
    · exact absurd h (by decide)
    · exact toDigits_no_percent _ h

theorem ParseInt_mk_toString (c : Int) (h1 : -2 ^ 31 ≤ c) (h2 : c < 2 ^ 31) :
    strconv.ParseInt (String.mk (toString c).data) 10 32 = (c, none) := by
  have hr : -2147483648 ≤ c ∧ c ≤ 2147483647 := by
    norm_num at h1 h2
    omega
  show strconv.ParseInt (toString c) 10 32 = (c, none)
  rw [strconv.ParseInt_toString, if_pos hr]

/-- The comparison `field > c` of the code matches exactly the rows whose key is
greater than `c`. -/
theorem selects_gt (field : String) (key c : Int) (hf : '%' ∉ field.data)
    (h1 : -2 ^ 31 ≤ c) (h2 : c < 2 ^ 31) :
    selects field key (sqlf.Sprintf (field ++ " > " ++ toString c) [])
      = some (decide (key > c)) := by
  rw [sqlf.Sprintf_literal _
    (database.not_mem_cmp_text field " > " (toString c) hf (by decide) (toString_no_percent c))]
  have hd : (field ++ " > " ++ toString c).data
      = (field.data ++ [' ']) ++ ('>' :: ' ' :: (toString c).data) := by
    simp [String.data_append]
  simp only [selects, hd, stripPrefix_append]
  have hop : stripPrefix (">".data ++ [' ']) ('>' :: ' ' :: (toString c).data)
      = some (toString c).data := stripPrefix_append ['>', ' '] _
  simp only [operators, List.findSome?, hop, ParseInt_mk_toString c h1 h2]

/-- The comparison `field < c` of the code matches exactly the rows whose key is
less than `c`. -/
theorem selects_lt (field : String) (key c : Int) (hf : '%' ∉ field.data)
    (h1 : -2 ^ 31 ≤ c) (h2 : c < 2 ^ 31) :
    selects field key (sqlf.Sprintf (field ++ " < " ++ toString c) [])
      = some (decide (key < c)) := by
  rw [sqlf.Sprintf_literal _
    (database.not_mem_cmp_text field " < " (toString c) hf (by decide) (toString_no_percent c))]
  have hd : (field ++ " < " ++ toString c).data
      = (field.data ++ [' ']) ++ ('<' :: ' ' :: (toString c).data) := by
    simp [String.data_append]
  simp only [selects, hd, stripPrefix_append]
  have hop1 : stripPrefix (">".data ++ [' ']) ('<' :: ' ' :: (toString c).data) = none := by
    simp [stripPrefix]
  have hop2 : stripPrefix ("<".data ++ [' ']) ('<' :: ' ' :: (toString c).data)
      = some (toString c).data := stripPrefix_append ['<', ' '] _
  simp only [operators, List.findSome?, hop1, hop2, ParseInt_mk_toString c h1 h2]

end spec

namespace database

theorem PaginationArgs.orderByColumn_of_keys (p : PaginationArgs) (f : OrderByOption)
    (t : List OrderByOption)
    (hkeys : (if p.OrderBy = [] then [{ Field := "id" }] else p.OrderBy) = f :: t) :
    p.orderByColumn = f := by
  cases hO : p.OrderBy with
  | nil =>
    rw [hO] at hkeys
    simp only [if_true, List.cons.injEq] at hkeys
    rw [p.orderByColumn_nil hO, hkeys.1]
  | cons c r =>
    rw [hO] at hkeys
    simp only [List.cons.injEq, reduceCtorEq, if_false] at hkeys
    rw [p.orderByColumn_cons c r hO, hkeys.1]

/-- C5: for a request that is not flipped (`First` set, or `Last` not set) whose
defaulted `OrderBy` starts with the key `f`, the comparisons of the `Where` are
exactly: for an `After` cursor `a`, `f > a` when `Ascending` is true and `f < a`
when it is false; for a `Before` cursor `b`, `f < b`, respectively `f > b`. Read by
the store on the integer cursor `c`, the comparison of `After` alone matches the
rows with key `> c` (ascending) or `< c`, that of `Before` alone those with key
`< c` or `> c`, and with `c` as either cursor a row whose key equals `c` is never
selected. -/
theorem SQL_Where_not_flipped (p : PaginationArgs) (f : OrderByOption) (t : List OrderByOption)
    (_h : p.First ≠ none ∨ p.Last = none)
    (hkeys : (if p.OrderBy = [] then [{ Field := "id" }] else p.OrderBy) = f :: t) :
    p.conditions =
      (p.After.toList.map fun a =>
        sqlf.Sprintf (f.Field ++ (if p.Ascending then " > " else " < ") ++ a) [])
      ++ (p.Before.toList.map fun b =>
        sqlf.Sprintf (f.Field ++ (if p.Ascending then " < " else " > ") ++ b) [])
    ∧ p.SQL.Where = (if p.conditions = [] then none else some (sqlf.Join p.conditions "AND "))
    ∧ (∀ a, p.After = some a → ∃ post, p.SQL.Where = some (sqlf.Join
        (sqlf.Sprintf (f.Field ++ (if p.Ascending then " > " else " < ") ++ a) [] :: post)
        "AND "))
    ∧ (∀ b, p.Before = some b → ∃ pre, p.SQL.Where = some (sqlf.Join
        (pre ++ [sqlf.Sprintf (f.Field ++ (if p.Ascending then " < " else " > ") ++ b) []])
        "AND "))
    ∧ (∀ key c : Int, -2 ^ 31 ≤ c → c < 2 ^ 31 → '%' ∉ f.Field.data →
        (p.After = some (toString c) → p.Before = none →
          spec.selectsAll f.Field key p.conditions
            = if p.Ascending then decide (key > c) else decide (key < c))
        ∧ (p.After = none → p.Before = some (toString c) →
          spec.selectsAll f.Field key p.conditions
            = if p.Ascending then decide (key < c) else decide (key > c))
        ∧ (p.After = some (toString c) ∨ p.Before = some (toString c) →
          spec.selectsAll f.Field c p.conditions = false)) := by
  have hcol : p.orderByColumn = f := by
    unfold PaginationArgs.orderByColumn PaginationArgs.orderBy
    cases hO : p.OrderBy with
    | nil =>
      rw [hO] at hkeys
      simp only [if_true, List.cons.injEq] at hkeys
      simp [hkeys.1]
    | cons c r =>
      rw [hO] at hkeys
      simp only [List.cons.injEq, reduceCtorEq, if_false] at hkeys
      simp [hkeys.1]
  have hcond : p.conditions =
      (p.After.toList.map fun a =>
        sqlf.Sprintf (f.Field ++ (if p.Ascending then " > " else " < ") ++ a) [])
      ++ (p.Before.toList.map fun b =>
        sqlf.Sprintf (f.Field ++ (if p.Ascending then " < " else " > ") ++ b) []) := by
    unfold PaginationArgs.conditions
    rw [hcol]
    cases p.After <;> cases p.Before <;> cases p.Ascending <;> simp [String.append_assoc]
  refine ⟨hcond, p.SQL_Where, ?_, ?_, ?_⟩
  · intro a ha
    exact ⟨_, hcol ▸ p.Where_of_After a ha⟩
  · intro b hb
    exact ⟨_, hcol ▸ p.Where_of_Before b hb⟩
  · intro key c h1 h2 hf
    refine ⟨?_, ?_, ?_⟩
    · intro ha hb
      rw [hcond, ha, hb]
      cases p.Ascending
      · simp [spec.selectsAll, spec.selects_lt f.Field key c hf h1 h2]
      · simp [spec.selectsAll, spec.selects_gt f.Field key c hf h1 h2]
    · intro ha hb
      rw [hcond, ha, hb]
      cases p.Ascending
      · simp [spec.selectsAll, spec.selects_gt f.Field key c hf h1 h2]
      · simp [spec.selectsAll, spec.selects_lt f.Field key c hf h1 h2]
    · intro hc
      rw [hcond]
      rcases hc with ha | hb
      · rw [ha]
        cases p.Ascending
        · simp [spec.selectsAll, spec.selects_lt f.Field c c hf h1 h2]
        · simp [spec.selectsAll, spec.selects_gt f.Field c c hf h1 h2]
      · rw [hb]
        cases p.Ascending
        · simp [spec.selectsAll, spec.selects_gt f.Field c c hf h1 h2]
        · simp [spec.selectsAll, spec.selects_lt f.Field c c hf h1 h2]

/-- At the boundary scenario, `first: 10, after: "5"` on `id` ascending: the
`Where` is `id > 5`; the row with key 5 is not selected, the row with key 6 is. On
`name` descending between `after: "9"` and `before: "5"` the `Where` is
`name < 9 AND  name > 5`, which selects the key 7 and neither 9 nor 5. -/
theorem SQL_Where_not_flipped_witness :
    (boundaryRequest.First ≠ none ∨ boundaryRequest.Last = none)
    ∧ (if boundaryRequest.OrderBy = [] then [{ Field := "id" }] else boundaryRequest.OrderBy)
        = [{ Field := "id" }]
    ∧ boundaryRequest.After = some (toString (5 : Int))
    ∧ boundaryRequest.SQL.Where = some ⟨"id > 5", []⟩
    ∧ spec.selectsAll "id" 5 boundaryRequest.conditions = false
    ∧ spec.selectsAll "id" 6 boundaryRequest.conditions = true
    ∧ spec.selectsAll "id" 4 boundaryRequest.conditions = false
    ∧ descendingNameRequest.SQL.Where = some ⟨"name < 9 AND  name > 5", []⟩
    ∧ spec.selectsAll "name" 7 descendingNameRequest.conditions = true
    ∧ spec.selectsAll "name" 9 descendingNameRequest.conditions = false
    ∧ spec.selectsAll "name" 5 descendingNameRequest.conditions = false :=
  ⟨Or.inl (by decide), by decide, by decide, by decide,
    ((SQL_Where_not_flipped boundaryRequest { Field := "id" } [] (Or.inl (by decide))
      (by decide)).2.2.2.2 5 5 (by decide) (by decide) (by decide)).2.2 (Or.inl (by decide)),
    by decide, by decide, by decide, by decide,
    ((SQL_Where_not_flipped descendingNameRequest { Field := "name" } [] (Or.inl (by decide))
      (by decide)).2.2.2.2 9 9 (by decide) (by decide) (by decide)).2.2 (Or.inl (by decide)),
    ((SQL_Where_not_flipped descendingNameRequest { Field := "name" } [] (Or.inl (by decide))
      (by decide)).2.2.2.2 5 5 (by decide) (by decide) (by decide)).2.2 (Or.inr (by decide))⟩

end database

/-! ## Requests that the specification rejects -/

namespace database

/-- C11, as stated, fails: the requests `first: 2, last: 3`, `first: 0` and
`last: -1` are all compiled, to the limits 2, 0 and -1. -/
theorem SQL_compiles_rejected_requests :
    bothCountsRequest.SQL
      = { Where := none, Order := some ⟨"id ASC", []⟩, Limit := some ⟨"LIMIT %s", [.int 2]⟩ }
    ∧ zeroCountRequest.SQL
      = { Where := none, Order := some ⟨"id ASC", []⟩, Limit := some ⟨"LIMIT %s", [.int 0]⟩ }
    ∧ negativeCountRequest.SQL
      = { Where := none, Order := some ⟨"id DESC", []⟩, Limit := some ⟨"LIMIT %s", [.int (-1)]⟩ } := by
  decide

/-- C11, amended: compiling never fails, every request gets a query with an
`Order`. When both `First` and `Last` are set, `First` wins: the limit is `*First`
and the order has the base direction. A count that is zero or negative is the
bound value of the `LIMIT` as it is. -/
theorem SQL_total (p : PaginationArgs) :
    p.SQL.Order ≠ none
    ∧ (∀ f l, p.First = some f → p.Last = some l →
        p.SQL.Limit = some ⟨"LIMIT %s", [.int f]⟩
        ∧ p.SQL.Order = some (database.OrderBy.SQL
            (if p.OrderBy = [] then [{ Field := "id" }] else p.OrderBy) p.Ascending))
    ∧ (∀ n, n ≤ 0 → p.First = some n ∨ (p.First = none ∧ p.Last = some n) →
        p.SQL.Limit = some ⟨"LIMIT %s", [.int n]⟩) := by
  refine ⟨?_, ?_, ?_⟩
  · rw [p.SQL_Order]
    simp
  · intro f l hf hl
    rw [p.SQL_Limit, p.SQL_Order, hf, hl]
    refine ⟨by simp [sqlf.Sprintf_limit], ?_⟩
    unfold PaginationArgs.orderBy
    cases p.OrderBy <;> simp
  · intro n _ h
    rw [p.SQL_Limit]
    rcases h with h | ⟨h1, h2⟩
    · simp [h, sqlf.Sprintf_limit]
    · simp [h1, h2, sqlf.Sprintf_limit]

/-- At the requests `first: 2, last: 3` and `last: -1`. -/
theorem SQL_total_witness :
    (bothCountsRequest.First = some 2 ∧ bothCountsRequest.Last = some 3)
    ∧ bothCountsRequest.SQL.Limit = some ⟨"LIMIT %s", [.int 2]⟩
    ∧ ((-1 : Int) ≤ 0 ∧ negativeCountRequest.First = none ∧ negativeCountRequest.Last = some (-1))
    ∧ negativeCountRequest.SQL.Limit = some ⟨"LIMIT %s", [.int (-1)]⟩ :=
  ⟨⟨rfl, rfl⟩, ((SQL_total bothCountsRequest).2.1 2 3 rfl rfl).1,
    ⟨by decide, rfl, rfl⟩,
    (SQL_total negativeCountRequest).2.2 (-1) (by decide) (Or.inr ⟨rfl, rfl⟩)⟩

end database

/-! ## The lookahead row -/

namespace spec

/-- C12: for a requested limit `N > 0` and a fetch that is not flipped, made with
the limit `N + 1`: on more than `N` fetched rows `finish` returns exactly the
first `N` rows with `hasNextPage = true`, and on `N` or fewer rows it returns them
all with `hasNextPage = false`. -/
theorem finish_lookahead {Row : Type} (available : List Row) (N : Nat) (hN : 0 < N)
    (afterSupplied beforeSupplied : Bool) :
    (N < (fetch available (N + 1)).length →
      (finish (fetch available (N + 1)) N false afterSupplied beforeSupplied).rows
          = (fetch available (N + 1)).take N
      ∧ (finish (fetch available (N + 1)) N false afterSupplied beforeSupplied).rows.length = N
      ∧ (finish (fetch available (N + 1)) N false afterSupplied beforeSupplied).hasNextPage = true)
    ∧ ((fetch available (N + 1)).length ≤ N →
      (finish (fetch available (N + 1)) N false afterSupplied beforeSupplied).rows
          = fetch available (N + 1)
      ∧ (finish (fetch available (N + 1)) N false afterSupplied beforeSupplied).hasNextPage
          = false) := by
  have hfetch : (fetch available (N + 1)).length ≤ N + 1 := by
    simp [fetch, List.length_take]
  have hN0 : N ≠ 0 := by omega
  refine ⟨?_, ?_⟩
  · intro h
    have hlen : (fetch available (N + 1)).length = N + 1 := by omega
    have hdrop : (fetch available (N + 1)).dropLast = (fetch available (N + 1)).take N := by
      rw [List.dropLast_eq_take, hlen]
      rfl
    simp [finish, hN0, h, hdrop, List.length_take]
    omega
  · intro h
    have h' : ¬ N < (fetch available (N + 1)).length := by omega
    simp [finish, hN0, h']

/-- The lookahead scenarios: `first = 2` over five rows, `first = 3` over four rows
and over three rows. -/
theorem finish_lookahead_witness :
    (0 < 2 ∧ 2 < (fetch [1, 2, 3, 4, 5] (2 + 1)).length)
    ∧ finish (fetch [1, 2, 3, 4, 5] (2 + 1)) 2 false false false
        = { rows := [1, 2], hasNextPage := true, hasPreviousPage := false }
    ∧ finish (fetch [1, 2, 3, 4] (3 + 1)) 3 false false false
        = { rows := [1, 2, 3], hasNextPage := true, hasPreviousPage := false }
    ∧ (finish (fetch [1, 2, 3] (3 + 1)) 3 false false false).hasNextPage = false
    ∧ (finish (fetch [1, 2, 3, 4, 5] (2 + 1)) 2 false false false).hasNextPage = true :=
  ⟨⟨by decide, by decide⟩, by decide, by decide,
    ((finish_lookahead [1, 2, 3] 3 (by decide) false false).2 (by decide)).2,
    ((finish_lookahead [1, 2, 3, 4, 5] 2 (by decide) false false).1 (by decide)).2.2⟩

end spec

/-! ## The text of the compiled query -/

namespace sqlf

theorem Sprintf_args_nil (format : String) : (Sprintf format []).args = [] :=
  rfl

theorem fromVerb_v (rest : List Char) : fromVerb ('v' :: rest) = 'v' :: rest := by
  have h1 : isFlag 'v' = false := by decide
  have h2 : Char.isDigit 'v' = false := by decide
  have h3 : ('v' = '.') = False := by decide
  simp [fromVerb, skipFlags, skipNumber, skipPrecision, h1, h2, h3]

theorem goSprintfLoop_v (fuel : Nat) (rest : List Char) (o : String) (ops : List String) :
    goSprintfLoop (fuel + 1) ('%' :: 'v' :: rest) (o :: ops)
      = o.data ++ goSprintfLoop fuel rest ops := by
  have h : ('v' = '%') = False := by decide
  simp [goSprintfLoop, fromVerb_v, h]

theorem goSprintfLoop_literal_v : ∀ (mid : List Char) (fuel : Nat) (y : String),
    mid.length + 2 ≤ fuel → '%' ∉ mid →
    goSprintfLoop fuel (mid ++ ['%', 'v']) [y] = mid ++ y.data
  | [], fuel, y, hlen, _ => by
    obtain ⟨f, rfl⟩ : ∃ f, fuel = f + 1 := ⟨fuel - 1, by simp at hlen; omega⟩
    rw [List.nil_append, goSprintfLoop_v]
    cases f <;> simp [goSprintfLoop, extraOperands]
  | c :: mid, fuel, y, hlen, h => by
    obtain ⟨f, rfl⟩ : ∃ f, fuel = f + 1 := ⟨fuel - 1, by simp at hlen; omega⟩
    have hc : c ≠ '%' := fun e => h (by simp [e])
    have hrest : '%' ∉ mid := fun e => h (List.mem_cons_of_mem _ e)
    have hl : mid.length + 2 ≤ f := by simp at hlen; omega
    simp [goSprintfLoop, hc, goSprintfLoop_literal_v mid f y hl hrest]

/-- A format `%v`, text without `%`, `%v` with two queries writes the first, the
text and the second. -/
theorem goSprintf_v_literal_v (mid : List Char) (x y : String) (h : '%' ∉ mid) :
    goSprintf ('%' :: 'v' :: (mid ++ ['%', 'v'])) [x, y] = x.data ++ (mid ++ y.data) := by
  unfold goSprintf
  rw [List.length_cons, goSprintfLoop_v,
    goSprintfLoop_literal_v mid _ y (by simp) h]

theorem Sprintf_where (q w : Query) :
    Sprintf "%v WHERE %v" [.query q, .query w]
      = ⟨q.fmt ++ " WHERE " ++ w.fmt, q.args ++ w.args⟩ := by
  have he : escapePercent "%v WHERE %v".data = '%' :: 'v' :: (" WHERE ".data ++ ['%', 'v']) := by
    decide
  simp only [Sprintf, he, Operand.format, Operand.args, List.map, List.flatMap_cons,
    List.flatMap_nil]
  congr 1
  · apply String.ext
    rw [goSprintf_v_literal_v _ _ _ (by decide)]
    simp [String.data_append]
  · simp

theorem Sprintf_orderBy (q o : Query) :
    Sprintf "%v ORDER BY %v" [.query q, .query o]
      = ⟨q.fmt ++ " ORDER BY " ++ o.fmt, q.args ++ o.args⟩ := by
  have he : escapePercent "%v ORDER BY %v".data
      = '%' :: 'v' :: (" ORDER BY ".data ++ ['%', 'v']) := by
    decide
  simp only [Sprintf, he, Operand.format, Operand.args, List.map, List.flatMap_cons,
    List.flatMap_nil]
  congr 1
  · apply String.ext
    rw [goSprintf_v_literal_v _ _ _ (by decide)]
    simp [String.data_append]
  · simp

theorem Sprintf_space (q l : Query) :
    Sprintf "%v %v" [.query q, .query l] = ⟨q.fmt ++ " " ++ l.fmt, q.args ++ l.args⟩ := by
  have he : escapePercent "%v %v".data = '%' :: 'v' :: (" ".data ++ ['%', 'v']) := by
    decide
  simp only [Sprintf, he, Operand.format, Operand.args, List.map, List.flatMap_cons,
    List.flatMap_nil]
  congr 1
  · apply String.ext
    rw [goSprintf_v_literal_v _ _ _ (by decide)]
    simp [String.data_append]
  · simp

end sqlf

namespace database

theorem PaginationArgs.conditions_args (p : PaginationArgs) :
    ∀ c ∈ p.conditions, c.args = [] := by
  intro c hc
  rw [p.conditions_eq] at hc
  rcases List.mem_append.1 hc with h | h
  · obtain ⟨a, _, rfl⟩ := List.mem_map.1 h
    rfl
  · obtain ⟨b, _, rfl⟩ := List.mem_map.1 h
    rfl

theorem Join_args_nil (cs : List sqlf.Query) (sep : String) (h : ∀ c ∈ cs, c.args = []) :
    (sqlf.Join cs sep).args = [] := by
  simp only [sqlf.Join, List.flatMap_eq_nil_iff]
  exact h

/-- C13, as stated, fails: the boundary scenario with the cursor `5` and the same
request with the cursor `6` have the `Where` texts `id > 5` and `id > 6`, and
neither has a bound value. -/
theorem SQL_Where_text_depends_on_cursor :
    boundaryRequest.SQL.Where = some ⟨"id > 5", []⟩
    ∧ (PaginationArgs.SQL { boundaryRequest with After := some "6" }).Where
        = some ⟨"id > 6", []⟩
    ∧ boundaryRequest.SQL.Where.map sqlf.Query.fmt
        ≠ (PaginationArgs.SQL { boundaryRequest with After := some "6" }).Where.map
            sqlf.Query.fmt := by
  decide

theorem string_append_left_cancel (x a b : String) (h : x ++ a = x ++ b) : a = b := by
  apply String.ext
  have hd := congrArg String.data h
  simp only [String.data_append] at hd
  exact List.append_cancel_left hd

/-- C13, amended: the `Where` never has a bound value: for a request whose
defaulted `OrderBy` starts with the key `f`, each comparison is the text
`f op cursor` handed to `sqlf.Sprintf` as its format, with no operand, so the
cursor goes into the query text. For a field and a cursor without `%` the text of
a `Where` with one cursor is literally `f op cursor`, so two requests that differ
only in that `After` cursor have different query texts. -/
theorem SQL_Where_interpolates_cursor (p : PaginationArgs) (f : OrderByOption)
    (t : List OrderByOption)
    (hkeys : (if p.OrderBy = [] then [{ Field := "id" }] else p.OrderBy) = f :: t) :
    p.SQL.Where =
      (if p.After = none ∧ p.Before = none then none
       else some (sqlf.Join
        ((p.After.toList.map fun a =>
            sqlf.Sprintf (f.Field ++ (if p.Ascending then " > " else " < ") ++ a) [])
          ++ (p.Before.toList.map fun b =>
            sqlf.Sprintf (f.Field ++ (if p.Ascending then " < " else " > ") ++ b) [])) "AND "))
    ∧ (∀ w, p.SQL.Where = some w → w.args = [])
    ∧ (∀ a, p.After = some a → p.Before = none → '%' ∉ f.Field.data → '%' ∉ a.data →
        p.SQL.Where = some ⟨f.Field ++ (if p.Ascending then " > " else " < ") ++ a, []⟩)
    ∧ (∀ b, p.After = none → p.Before = some b → '%' ∉ f.Field.data → '%' ∉ b.data →
        p.SQL.Where = some ⟨f.Field ++ (if p.Ascending then " < " else " > ") ++ b, []⟩)
    ∧ (∀ a a', p.Before = none → '%' ∉ f.Field.data → '%' ∉ a.data → '%' ∉ a'.data → a ≠ a' →
        (PaginationArgs.SQL { p with After := some a }).Where.map sqlf.Query.fmt
          ≠ (PaginationArgs.SQL { p with After := some a' }).Where.map sqlf.Query.fmt) := by
  have hcol : p.orderByColumn = f := by
    unfold PaginationArgs.orderByColumn PaginationArgs.orderBy
    cases hO : p.OrderBy with
    | nil =>
      rw [hO] at hkeys
      simp only [if_true, List.cons.injEq] at hkeys
      simp [hkeys.1]
    | cons c r =>
      rw [hO] at hkeys
      simp only [List.cons.injEq, reduceCtorEq, if_false] at hkeys
      simp [hkeys.1]
  have hafter : ∀ (q : PaginationArgs) (a : String), q.orderByColumn = f → q.After = some a →
      q.Before = none → '%' ∉ f.Field.data → '%' ∉ a.data →
      q.SQL.Where = some ⟨f.Field ++ (if q.Ascending then " > " else " < ") ++ a, []⟩ := by
    intro q a hq ha hb hf hv
    have hop : '%' ∉ (if q.Ascending then " > " else " < ").data := by
      cases q.Ascending <;> decide
    rw [q.Where_of_After a ha, hb, hq]
    simp only [Option.toList, List.map_nil, sqlf.Join_singleton]
    rw [sqlf.Sprintf_literal _ (not_mem_cmp_text _ _ _ hf hop hv)]
  refine ⟨?_, ?_, ?_, ?_, ?_⟩
  · rw [p.SQL_Where, p.conditions_eq, hcol]
    cases p.After <;> cases p.Before <;> simp
  · intro w hw
    rw [p.SQL_Where] at hw
    by_cases hc : p.conditions = []
    · simp [hc] at hw
    · rw [if_neg hc] at hw
      rw [← Option.some.inj hw]
      exact Join_args_nil _ _ p.conditions_args
  · intro a ha hb hf hv
    exact hafter p a hcol ha hb hf hv
  · intro b ha hb hf hv
    have hop : '%' ∉ (if p.Ascending then " < " else " > ").data := by
      cases p.Ascending <;> decide
    rw [p.Where_of_Before b hb, ha, hcol]
    simp only [Option.toList, List.map_nil, List.nil_append, sqlf.Join_singleton]
    rw [sqlf.Sprintf_literal _ (not_mem_cmp_text _ _ _ hf hop hv)]
  · intro a a' hb hf hv hv' hne heq
    have hq : ∀ x : String, PaginationArgs.orderByColumn { p with After := some x } = f := by
      intro x
      exact PaginationArgs.orderByColumn_of_keys _ f t hkeys
    rw [hafter { p with After := some a } a (hq a) rfl hb hf hv,
      hafter { p with After := some a' } a' (hq a') rfl hb hf hv'] at heq
    simp only [Option.map_some', Option.some.injEq] at heq
    exact hne (string_append_left_cancel _ _ _ heq)

/-- At the boundary scenario, `after: "5"` on `id` ascending: the text is `id > 5`,
there is no bound value, and the cursor `6` gives another text. -/
theorem SQL_Where_interpolates_cursor_witness :
    (if boundaryRequest.OrderBy = [] then [{ Field := "id" }] else boundaryRequest.OrderBy)
        = [{ Field := "id" }]
    ∧ (boundaryRequest.After = some "5" ∧ boundaryRequest.Before = none)
    ∧ boundaryRequest.SQL.Where = some ⟨"id" ++ " > " ++ "5", []⟩
    ∧ (∀ w, boundaryRequest.SQL.Where = some w → w.args = [])
    ∧ (PaginationArgs.SQL { boundaryRequest with After := some "5" }).Where.map sqlf.Query.fmt
        ≠ (PaginationArgs.SQL { boundaryRequest with After := some "6" }).Where.map
            sqlf.Query.fmt :=
  ⟨by decide, ⟨rfl, rfl⟩,
    (SQL_Where_interpolates_cursor boundaryRequest { Field := "id" } [] (by decide)).2.2.1
      "5" rfl rfl (by decide) (by decide),
    (SQL_Where_interpolates_cursor boundaryRequest { Field := "id" } [] (by decide)).2.1,
    (SQL_Where_interpolates_cursor boundaryRequest { Field := "id" } [] (by decide)).2.2.2.2
      "5" "6" rfl (by decide) (by decide) (by decide) (by decide)⟩

/-- C14: a key renders as its field, then ` ASC` or ` DESC` by the flag, then
` NULLS FIRST` iff `Nulls` is exactly `FIRST`, ` NULLS LAST` iff it is exactly
`LAST`, and nothing for any other value: the null placement does not depend on
the direction. For a field without `%` this text is the text of the query. -/
theorem OrderByOption_SQL_text (o : OrderByOption) (ascending : Bool) :
    o.SQL ascending = sqlf.Sprintf
      (o.Field ++ (if ascending then " ASC" else " DESC")
        ++ (if o.Nulls = "FIRST" then " NULLS FIRST"
            else if o.Nulls = "LAST" then " NULLS LAST" else "")) []
    ∧ ('%' ∉ o.Field.data →
        o.SQL ascending =
          ⟨o.Field ++ (if ascending then " ASC" else " DESC")
            ++ (if o.Nulls = "FIRST" then " NULLS FIRST"
                else if o.Nulls = "LAST" then " NULLS LAST" else ""), []⟩) := by
  have h1 : o.SQL ascending = sqlf.Sprintf
      (o.Field ++ (if ascending then " ASC" else " DESC")
        ++ (if o.Nulls = "FIRST" then " NULLS FIRST"
            else if o.Nulls = "LAST" then " NULLS LAST" else "")) [] := by
    unfold OrderByOption.SQL
    by_cases hF : o.Nulls = "FIRST"
    · cases ascending <;> simp [hF, String.append_assoc]
    · by_cases hL : o.Nulls = "LAST"
      · cases ascending <;> simp [hL, String.append_assoc]
      · cases ascending <;> simp [hF, hL]
  refine ⟨h1, ?_⟩
  intro hf
  rw [h1]
  apply sqlf.Sprintf_literal
  apply not_mem_cmp_text _ _ _ hf
  · cases ascending <;> decide
  · split
    · decide
    · split <;> decide

/-- At the key `name` with `Nulls = "LAST"`: `name DESC NULLS LAST` descending
and `name ASC NULLS LAST` ascending. -/
theorem OrderByOption_SQL_text_witness :
    OrderByOption.SQL { Field := "name", Nulls := "LAST" } false
      = ⟨"name" ++ " DESC" ++ " NULLS LAST", []⟩
    ∧ OrderByOption.SQL { Field := "name", Nulls := "LAST" } true = ⟨"name ASC NULLS LAST", []⟩
    ∧ OrderByOption.SQL { Field := "name", Nulls := "last" } true = ⟨"name ASC", []⟩ :=
  ⟨(OrderByOption_SQL_text { Field := "name", Nulls := "LAST" } false).2 (by decide),
    by decide, by decide⟩

end database

/-! ## Appending the clauses to a base query -/

namespace database

theorem QueryArgs.AppendWhereToQuery_eq (a : QueryArgs) (q : sqlf.Query) :
    a.AppendWhereToQuery q =
      ⟨q.fmt ++ (match a.Where with | some w => " WHERE " ++ w.fmt | none => ""),
        q.args ++ (match a.Where with | some w => w.args | none => [])⟩ := by
  unfold QueryArgs.AppendWhereToQuery
  cases a.Where with
  | none => simp
  | some w => simp [sqlf.Sprintf_where, String.append_assoc]

theorem QueryArgs.AppendOrderToQuery_eq (a : QueryArgs) (q : sqlf.Query) :
    a.AppendOrderToQuery q =
      ⟨q.fmt ++ (match a.Order with | some o => " ORDER BY " ++ o.fmt | none => ""),
        q.args ++ (match a.Order with | some o => o.args | none => [])⟩ := by
  unfold QueryArgs.AppendOrderToQuery
  cases a.Order with
  | none => simp
  | some o => simp [sqlf.Sprintf_orderBy, String.append_assoc]

theorem QueryArgs.AppendLimitToQuery_eq (a : QueryArgs) (q : sqlf.Query) :
    a.AppendLimitToQuery q =
      ⟨q.fmt ++ (match a.Limit with | some l => " " ++ l.fmt | none => ""),
        q.args ++ (match a.Limit with | some l => l.args | none => [])⟩ := by
  unfold QueryArgs.AppendLimitToQuery
  cases a.Limit with
  | none => simp
  | some l => simp [sqlf.Sprintf_space, String.append_assoc]

/-- C15: `AppendAllToQuery` appends to the base query, in this order, ` WHERE `
and the `Where`, ` ORDER BY ` and the `Order`, a blank and the `Limit`, skipping
each clause whose field is nil; the bound values follow in the same order. With
all three fields nil the base query is returned unchanged. -/
theorem AppendAllToQuery_clauses (a : QueryArgs) (q : sqlf.Query) :
    a.AppendAllToQuery q =
      ⟨q.fmt
        ++ (match a.Where with | some w => " WHERE " ++ w.fmt | none => "")
        ++ (match a.Order with | some o => " ORDER BY " ++ o.fmt | none => "")
        ++ (match a.Limit with | some l => " " ++ l.fmt | none => ""),
       q.args
        ++ (match a.Where with | some w => w.args | none => [])
        ++ (match a.Order with | some o => o.args | none => [])
        ++ (match a.Limit with | some l => l.args | none => [])⟩
    ∧ a.AppendAllToQuery q
        = a.AppendLimitToQuery (a.AppendOrderToQuery (a.AppendWhereToQuery q))
    ∧ QueryArgs.AppendAllToQuery { Where := none, Order := none, Limit := none } q = q := by
  refine ⟨?_, rfl, ?_⟩
  · unfold QueryArgs.AppendAllToQuery
    simp only [QueryArgs.AppendLimitToQuery_eq, QueryArgs.AppendOrderToQuery_eq,
      QueryArgs.AppendWhereToQuery_eq]
  · simp [QueryArgs.AppendAllToQuery, QueryArgs.AppendWhereToQuery, QueryArgs.AppendOrderToQuery,
      QueryArgs.AppendLimitToQuery]

end database

/-! ## The username lookup of `usersForTeamMembers` -/

namespace graphqlbackend

/-- For members without IDs, the users found by username are counted against the
empty list of IDs: the lookup is rejected as soon as the store returns a user. -/
theorem usersForTeamMembers_usernames_rejected {User : Type} (db : Collaborators User)
    (members : List TeamMemberInput) (us : List User)
    (hids : collectIDs db members = .ok [])
    (hnames : collectUsernames members ≠ [])
    (hlist : db.UsersList { Usernames := collectUsernames members } = .ok us)
    (hus : us ≠ []) :
    usersForTeamMembers db members = .error (.error "not all usernames returned a result") := by
  have h1 : 0 < (collectUsernames members).length := List.length_pos.2 hnames
  have h2 : us.length ≠ 0 := fun h => hus (List.length_eq_zero.1 h)
  simp [usersForTeamMembers, hids, h1, hlist, h2]

/-- C16 fails on the code: for the single member `alice`, given by username, the
store returns the one user `alice`, and `usersForTeamMembers` rejects the lookup
with "not all usernames returned a result"; for the unknown `carol`, for whom the
store returns nobody, it succeeds with no user. -/
theorem usersForTeamMembers_username_only :
    collectUsernames [{ Username := some "alice" }] = ["alice"]
    ∧ twoUsers.UsersList { Usernames := ["alice"] } = .ok ["alice"]
    ∧ usersForTeamMembers twoUsers [{ Username := some "alice" }]
        = .error (.error "not all usernames returned a result")
    ∧ twoUsers.UsersList { Usernames := ["carol"] } = .ok []
    ∧ usersForTeamMembers twoUsers [{ Username := some "carol" }] = .ok [] := by
  refine ⟨rfl, rfl, ?_, rfl, rfl⟩
  exact usersForTeamMembers_usernames_rejected twoUsers _ ["alice"] rfl (by decide) rfl (by decide)

end graphqlbackend

/-! ## `maybeQueryIsID` -/

namespace database

theorem toInt32_of_int32 (n : Int) (h1 : -2147483648 ≤ n) (h2 : n ≤ 2147483647) :
    toInt32 n = n := by
  unfold toInt32
  norm_num
  omega

/-- C17: on the decimal representation of an `int32` value `n`, `maybeQueryIsID`
returns `(n, true)`; on the decimal representation of an integer outside the
`int32` range that is not a valid GraphQL ID, the flag it returns is false. -/
theorem maybeQueryIsID_decimal (UnmarshalSpec : String → Int × Option String) (n : Int) :
    (-2 ^ 31 ≤ n ∧ n < 2 ^ 31 → maybeQueryIsID UnmarshalSpec (toString n) = (n, true))
    ∧ (n < -2 ^ 31 ∨ 2 ^ 31 ≤ n → (UnmarshalSpec (toString n)).2 ≠ none →
        (maybeQueryIsID UnmarshalSpec (toString n)).2 = false) := by
  refine ⟨?_, ?_⟩
  · rintro ⟨h1, h2⟩
    have hr : -2147483648 ≤ n ∧ n ≤ 2147483647 := by
      norm_num at h1 h2
      omega
    unfold maybeQueryIsID
    rw [strconv.ParseInt_toString, if_pos hr]
    simp only
    rw [toInt32_of_int32 n hr.1 hr.2]
  · intro h hU
    have hr : ¬ (-2147483648 ≤ n ∧ n ≤ 2147483647) := by
      norm_num at h
      omega
    unfold maybeQueryIsID
    rw [strconv.ParseInt_toString, if_neg hr]
    simp only
    simpa using hU

/-- At `-45`, at the bounds of `int32`, and at `2147483648`, with a library call
that rejects every string. -/
theorem maybeQueryIsID_decimal_witness :
    ((-2 : Int) ^ 31 ≤ -45 ∧ (-45 : Int) < 2 ^ 31)
    ∧ maybeQueryIsID (fun _ => (0, some "invalid graphql.ID")) (toString (-45 : Int)) = (-45, true)
    ∧ maybeQueryIsID (fun _ => (0, some "invalid graphql.ID")) "2147483647" = (2147483647, true)
    ∧ maybeQueryIsID (fun _ => (0, some "invalid graphql.ID")) "-2147483648" = (-2147483648, true)
    ∧ (maybeQueryIsID (fun _ => (0, some "invalid graphql.ID")) (toString (2147483648 : Int))).2
        = false :=
  ⟨by decide,
    (maybeQueryIsID_decimal (fun _ => (0, some "invalid graphql.ID")) (-45)).1 (by decide),
    by decide, by decide,
    (maybeQueryIsID_decimal (fun _ => (0, some "invalid graphql.ID")) 2147483648).2
      (Or.inr (by decide)) (by decide)⟩

end database


